import Mathlib

/-!
Verification of the formula form library core (src/lib/data.ts): the field
state builder (`createFormData`, `getInputValue`) and the event handling
engine (`subscribeToInputChanges`, `unsubscribeFromInputChanges`, `onFocus`,
`onBlur`, `onChange`, `onSubmit`).

The embedding is shallow: JavaScript objects keyed by field name become
association lists preserving insertion order, in-place mutation becomes
explicit state passing, event emission is recorded in the handler result,
and a thrown exception from the (external) validation collaborator is
modelled by an `Option`-valued validator, with the handler returning the
state as mutated up to the throw.
-/

/-- An input value is either a string (text inputs, radios) or a boolean
(checkboxes), mirroring the `InputValue` union type. -/
inductive InputValue where
  | str (s : String)
  | bool (b : Bool)
deriving DecidableEq, Repr

/-- JavaScript truthiness of an `InputValue`: the empty string and `false`
are falsy, everything else truthy. -/
def InputValue.truthy : InputValue → Bool
  | .str s => s ≠ ""
  | .bool b => b

/-- A form control (`FormFields` in the source): its name, raw string value,
checked flag, whether it is a genuine `HTMLInputElement`, and its native
`type` attribute (meaningful only when `isHTMLInput` is true). -/
structure FormFields where
  name : String
  value : String
  checked : Bool
  isHTMLInput : Bool
  inputType : String
deriving DecidableEq, Repr

/-- Modelled from the spec: `isRadio` from src/lib/utils/type-helpers.ts is
not under src/; per the spec the core performs runtime type inspection of
the control distinguishing radio controls among genuine native inputs. -/
def isRadio (input : FormFields) : Bool :=
  input.isHTMLInput && input.inputType == "radio"

/-- Modelled from the spec: `isCheckbox` from src/lib/utils/type-helpers.ts
is not under src/; per the spec the core performs runtime type inspection of
the control distinguishing checkbox controls among genuine native inputs. -/
def isCheckbox (input : FormFields) : Bool :=
  input.isHTMLInput && input.inputType == "checkbox"

/-- Per-field state (`FormulaForm[name]` in the source). -/
structure FieldState where
  value : InputValue
  isValid : Bool
  isTouched : Bool
  isFocused : Bool
  isDirty : Bool
  errors : List String
  inputType : Option String
deriving DecidableEq, Repr

/-- The form state: an insertion-ordered mapping from field name to field
state, as a JavaScript object is. -/
abbrev FormulaForm := List (String × FieldState)

/-- Look a field up by name (`formData[name]`). -/
def findField : FormulaForm → String → Option FieldState
  | [], _ => none
  | (m, w) :: rest, n => if m = n then some w else findField rest n

/-- The state an absent key reads as; used only to totalise `getField`.
Claims about real fields carry a presence hypothesis. -/
def defaultFieldState : FieldState :=
  { value := .str "", isValid := true, isTouched := false, isFocused := false,
    isDirty := false, errors := [], inputType := none }

/-- Total lookup, defaulting for absent names. -/
def getField (fd : FormulaForm) (n : String) : FieldState :=
  (findField fd n).getD defaultFieldState

/-- JavaScript object update `{...acc, [n]: v}`: replaces in place when the
key exists (keeping its position), appends otherwise. -/
def setField : FormulaForm → String → FieldState → FormulaForm
  | [], n, v => [(n, v)]
  | (m, w) :: rest, n, v =>
    if m = n then (n, v) :: rest else (m, w) :: setField rest n v

/-- In-place mutation `formData[n].x = ...` of an existing entry: applies
`f` to the entry named `n`, leaves everything else (including absent keys)
unchanged. -/
def updateField : FormulaForm → String → (FieldState → FieldState) → FormulaForm
  | [], _, _ => []
  | (m, w) :: rest, n, f =>
    if m = n then (m, f w) :: rest else (m, w) :: updateField rest n f

/-- Parse input data to return the correct value depending on the type
(`getInputValue` in the source): a checked radio yields its own value, an
unchecked radio yields `previousInputValue || ""` (JavaScript truthiness),
a checkbox yields its checked flag, anything else its raw value. -/
def getInputValue (input : FormFields) (previousInputValue : Option InputValue) :
    InputValue :=
  if isRadio input then
    if input.checked then .str input.value
    else
      match previousInputValue with
      | none => .str ""
      | some v => if v.truthy then v else .str ""
  else if isCheckbox input then .bool input.checked
  else .str input.value

/-- The field state `createFormData` builds for one control, given the value
already stored under that name in the accumulator. -/
def initialFieldState (cur : FormFields) (prev : Option InputValue) : FieldState :=
  { value := getInputValue cur prev
    isValid := true
    isTouched := false
    isFocused := false
    isDirty := false
    errors := []
    inputType := if cur.isHTMLInput then some cur.inputType else none }

/-- Returns the main formula object based on each input value and name
(`createFormData` in the source): a left fold over the controls in
declaration order, each step spreading the accumulator and writing the
control's entry, consulting `acc[cur.name]?.value` as the previous value. -/
def createFormData (inputs : List FormFields) : FormulaForm :=
  inputs.foldl
    (fun acc cur =>
      setField acc cur.name
        (initialFieldState cur ((findField acc cur.name).map (·.value))))
    []

theorem findField_setField (fd : FormulaForm) (n : String) (v : FieldState)
    (m : String) :
    findField (setField fd n v) m = if n = m then some v else findField fd m := by
  induction fd with
  | nil =>
    simp only [setField, findField]
  | cons p rest ih =>
    obtain ⟨k, w⟩ := p
    simp only [setField]
    by_cases hk : k = n
    · subst hk
      by_cases hm : k = m
      · subst hm
        simp [findField]
      · simp [findField, hm]
    · have hnk : ¬ n = k := fun h => hk h.symm
      simp only [if_neg hk, findField]
      by_cases hm : k = m
      · subst hm
        simp [hnk]
      · simp [hm, ih]

theorem findField_updateField (fd : FormulaForm) (n : String)
    (f : FieldState → FieldState) (m : String) :
    findField (updateField fd n f) m =
      if n = m then (findField fd m).map f else findField fd m := by
  induction fd with
  | nil =>
    simp only [updateField, findField]
    split <;> rfl
  | cons p rest ih =>
    obtain ⟨k, w⟩ := p
    simp only [updateField]
    by_cases hk : k = n
    · subst hk
      by_cases hm : k = m
      · subst hm
        simp [findField]
      · simp [findField, hm]
    · have hnk : ¬ n = k := fun h => hk h.symm
      simp only [if_neg hk, findField]
      by_cases hm : k = m
      · subst hm
        simp [hnk]
      · simp [hm, ih]

theorem getField_updateField (fd : FormulaForm) (n : String)
    (f : FieldState → FieldState) (m : String) (hm : (findField fd m).isSome) :
    getField (updateField fd n f) m =
      if n = m then f (getField fd m) else getField fd m := by
  unfold getField
  rw [findField_updateField]
  obtain ⟨w, hw⟩ := Option.isSome_iff_exists.mp hm
  rw [hw]
  split <;> rfl

theorem getField_updateField_ne (fd : FormulaForm) (n : String)
    (f : FieldState → FieldState) (m : String) (hnm : n ≠ m) :
    getField (updateField fd n f) m = getField fd m := by
  unfold getField
  rw [findField_updateField, if_neg hnm]

theorem isSome_findField_updateField (fd : FormulaForm) (n : String)
    (f : FieldState → FieldState) (m : String) :
    (findField (updateField fd n f) m).isSome = (findField fd m).isSome := by
  rw [findField_updateField]
  split
  · cases findField fd m <;> rfl
  · rfl

/-! ## Events, options, and external collaborators -/

/-! The recognized canonical trigger event names (the `Events` enum). -/

namespace Events

def change : String := "change"

def focus : String := "focus"

def blur : String := "blur"

def submit : String := "submit"

end Events

/-- Per-field configuration (`FormulaFieldOptions`). -/
structure FormulaFieldOptions where
  validateOn : Option String := none
  emitOn : Option (List String) := none
  validateDirtyOnly : Option Bool := none
deriving DecidableEq, Repr

/-- Per-form configuration keyed by field name (`FormulaValidations`). -/
abbrev FormulaValidations := List (String × FormulaFieldOptions)

/-- The JavaScript expression `options && options[input.name]`. -/
def getOpts (options : Option FormulaValidations) (name : String) :
    Option FormulaFieldOptions :=
  options.bind (fun o => List.lookup name o)

/-- The JavaScript expression `inputOptions?.validateOn || Events.change`:
the configured trigger when truthy (a non-empty string), else the canonical
change event. -/
def resolvedChangeEvent (inputOptions : Option FormulaFieldOptions) : String :=
  match inputOptions.bind (fun o => o.validateOn) with
  | none => Events.change
  | some s => if s = "" then Events.change else s

/-- The publish gate `!inputOptions?.emitOn || inputOptions.emitOn.includes(ev)`.
An array, even empty, is truthy in JavaScript, so an empty `emitOn` list
reaches `includes` and blocks every event. -/
def emitGate (inputOptions : Option FormulaFieldOptions) (ev : String) : Bool :=
  match inputOptions with
  | none => true
  | some o =>
    match o.emitOn with
    | none => true
    | some l => l.contains ev

/-- Payload of a published event: field events carry the field's state,
the submit event carries the whole form state plus the aggregate flag. -/
inductive EmitPayload where
  | field (fs : FieldState)
  | submitPayload (formData : FormulaForm) (isValid : Bool)
deriving DecidableEq, Repr

/-- One published event: its name and payload. -/
structure EmittedEvent where
  name : String
  payload : EmitPayload
deriving DecidableEq, Repr

/-- Abstract behaviour of the external validation rule engine for one field:
given the control, the current form state and the field's options, it yields
the field's new validity flag and error list, or `none` to model a thrown
error. -/
def Validator : Type :=
  FormFields → FormulaForm → Option FormulaFieldOptions → Option (Bool × List String)

/-- Modelled from the spec: `validationFns.applyFieldValidation` from
src/lib/validation.ts is not under src/. Per the spec it synchronously
mutates only `state[name].isValid` and `state[name].errors` for the one
field, and an unhandled failure propagates to the caller (`none` here). -/
def applyFieldValidation (v : Validator) (input : FormFields) (fd : FormulaForm)
    (inputOptions : Option FormulaFieldOptions) : Option FormulaForm :=
  match v input fd inputOptions with
  | none => none
  | some (b, errs) =>
    some (updateField fd input.name (fun fs => { fs with isValid := b, errors := errs }))

/-- Result of one field-handler invocation: the form state after the
handler returns (or after the mutation reached when validation threw), the
events published by the handler, and whether it terminated by a thrown
validation error. -/
structure HandlerResult where
  state : FormulaForm
  emitted : List EmittedEvent
  threw : Bool
deriving DecidableEq, Repr

/-! ## The event handlers (`eventHandlingFns`) -/

/-- Callback executed on focus (`onFocus`): sets `isFocused`, never
validates, publishes the focus event under the `emitOn` gate. -/
def onFocusRun (input : FormFields) (inputOptions : Option FormulaFieldOptions)
    (fd : FormulaForm) : HandlerResult :=
  let fd1 := updateField fd input.name (fun fs => { fs with isFocused := true })
  { state := fd1
    emitted :=
      if emitGate inputOptions Events.focus then
        [⟨Events.focus, .field (getField fd1 input.name)⟩]
      else []
    threw := false }

/-- Callback executed on blur (`onBlur`): clears `isFocused`; on the first
blur sets `isTouched` and, when `validateDirtyOnly` is explicitly `false`,
runs validation; publishes the blur event under the `emitOn` gate. -/
def onBlurRun (v : Validator) (input : FormFields)
    (inputOptions : Option FormulaFieldOptions) (fd : FormulaForm) : HandlerResult :=
  let fd1 := updateField fd input.name (fun fs => { fs with isFocused := false })
  let afterTouch : Option FormulaForm :=
    if (getField fd1 input.name).isTouched then some fd1
    else
      let fd2 := updateField fd1 input.name (fun fs => { fs with isTouched := true })
      if (inputOptions.bind (fun o => o.validateDirtyOnly)) = some false then
        applyFieldValidation v input fd2 inputOptions
      else some fd2
  match afterTouch with
  | none =>
    { state := updateField fd1 input.name (fun fs => { fs with isTouched := true })
      emitted := []
      threw := true }
  | some fd3 =>
    { state := fd3
      emitted :=
        if emitGate inputOptions Events.blur then
          [⟨Events.blur, .field (getField fd3 input.name)⟩]
        else []
      threw := false }

/-- The native event delivered to a change handler: the target's current
value and checked flag. -/
structure EventData where
  targetValue : String
  targetChecked : Bool
deriving DecidableEq, Repr

/-- Callback executed on input/change (`onChange`): stores the checked flag
for checkboxes, else the target's raw value (no radio fallback); always
validates; sets `isDirty` if unset; publishes under the `emitOn` gate for
the resolved trigger. A thrown validation aborts after the value write. -/
def onChangeRun (v : Validator) (input : FormFields)
    (inputOptions : Option FormulaFieldOptions) (e : EventData) (fd : FormulaForm) :
    HandlerResult :=
  let selectedEvent := resolvedChangeEvent inputOptions
  let newValue : InputValue :=
    if isCheckbox input then .bool e.targetChecked else .str e.targetValue
  let fd1 := updateField fd input.name (fun fs => { fs with value := newValue })
  match applyFieldValidation v input fd1 inputOptions with
  | none => { state := fd1, emitted := [], threw := true }
  | some fd2 =>
    let fd3 :=
      if (getField fd2 input.name).isDirty then fd2
      else updateField fd2 input.name (fun fs => { fs with isDirty := true })
    { state := fd3
      emitted :=
        if emitGate inputOptions selectedEvent then
          [⟨selectedEvent, .field (getField fd3 input.name)⟩]
        else []
      threw := false }

/-- The loop body of `onSubmit`: validates the inputs in declaration order,
conjoining each field's post-validation `isValid` into the accumulator,
stopping (with `threw = true`) at the first thrown validation. -/
def submitLoop (v : Validator) (options : Option FormulaValidations) :
    List FormFields → FormulaForm → Bool → FormulaForm × Bool × Bool
  | [], fd, acc => (fd, acc, false)
  | input :: rest, fd, acc =>
    match applyFieldValidation v input fd (getOpts options input.name) with
    | none => (fd, acc, true)
    | some fd1 =>
      let acc1 := if (getField fd1 input.name).isValid then acc else false
      submitLoop v options rest fd1 acc1

/-- Result of one submit-handler invocation. -/
structure SubmitResult where
  preventedDefault : Bool
  state : FormulaForm
  emitted : List EmittedEvent
  threw : Bool
deriving DecidableEq, Repr

/-- Callback executed on submit (`onSubmit`): suppresses the default action,
validates every field in order, ANDs their validity, and publishes one
submit event carrying the form state and the aggregate flag — unless a
validation threw, in which case nothing is published. -/
def onSubmitRun (v : Validator) (inputs : List FormFields)
    (options : Option FormulaValidations) (fd : FormulaForm) : SubmitResult :=
  let r := submitLoop v options inputs fd true
  if r.2.2 then
    { preventedDefault := true, state := r.1, emitted := [], threw := true }
  else
    { preventedDefault := true, state := r.1
      emitted := [⟨Events.submit, .submitPayload r.1 r.2.1⟩]
      threw := false }

/-- One handler invocation, for reasoning about arbitrary event sequences
delivered to the handlers bound to one shared form state. -/
inductive HandlerCall where
  | focusCall (input : FormFields) (inputOptions : Option FormulaFieldOptions)
  | blurCall (input : FormFields) (inputOptions : Option FormulaFieldOptions)
  | changeCall (input : FormFields) (inputOptions : Option FormulaFieldOptions)
      (e : EventData)
  | submitCall (inputs : List FormFields) (options : Option FormulaValidations)

/-- The state reached after one handler invocation (partial mutations of an
aborted invocation included). -/
def runCall (v : Validator) (fd : FormulaForm) : HandlerCall → FormulaForm
  | .focusCall input o => (onFocusRun input o fd).state
  | .blurCall input o => (onBlurRun v input o fd).state
  | .changeCall input o e => (onChangeRun v input o e fd).state
  | .submitCall inputs os => (onSubmitRun v inputs os fd).state

/-- The state reached after a sequence of handler invocations in host
delivery order. -/
def runCalls (v : Validator) (calls : List HandlerCall) (fd : FormulaForm) :
    FormulaForm :=
  calls.foldl (runCall v) fd

/-! ## Listener registration (`subscribeToInputChanges` / `unsubscribeFromInputChanges`)

A handler closure produced by one `subscribeToInputChanges` call is
identified by the subscription it came from (`sid`, modelling reference
identity of the fresh closures), the field name it was built for, and which
of the three callbacks it is. The host's listener table is a list of
`(control, event, handler)` registrations in registration order;
`addEventListener` ignores a duplicate registration of the same handler for
the same event, `removeEventListener` detaches the first match. -/

/-- Which of the three per-field callbacks a handler closure is. -/
inductive HandlerKind where
  | change
  | focus
  | blur
deriving DecidableEq, Repr

/-- One row of the host's listener table: a handler registered for an event
on a control (controls are identified by their unique name). -/
structure ListenerEntry where
  control : String
  event : String
  sid : Nat
  field : String
  kind : HandlerKind
deriving DecidableEq, Repr

/-- Host `addEventListener`: appends unless the identical registration is
already present. -/
def addListener (r : List ListenerEntry) (e : ListenerEntry) : List ListenerEntry :=
  if e ∈ r then r else r ++ [e]

/-- Host `removeEventListener`: detaches the first matching registration,
does nothing when none matches. -/
def removeListener : List ListenerEntry → ListenerEntry → List ListenerEntry
  | [], _ => []
  | x :: rest, e => if x = e then rest else x :: removeListener rest e

/-- The three registrations `subscribeToInputChanges` performs for one
control: the change callback on `validateOn || change`, and the focus and
blur callbacks on the canonical focus and blur events. -/
def inputRegistrations (sid : Nat) (options : Option FormulaValidations)
    (input : FormFields) : List ListenerEntry :=
  [⟨input.name, resolvedChangeEvent (getOpts options input.name), sid, input.name, .change⟩,
   ⟨input.name, Events.focus, sid, input.name, .focus⟩,
   ⟨input.name, Events.blur, sid, input.name, .blur⟩]

/-- Subscribes to input (or change), focus and blur events
(`subscribeToInputChanges`): for each control in order, registers its three
fresh callbacks on the host. The returned `ChangeCallbacks` record is
determined by `sid` and the field names, so the registry is the result. -/
def subscribeToInputChanges (sid : Nat) (inputs : List FormFields)
    (options : Option FormulaValidations) (r : List ListenerEntry) :
    List ListenerEntry :=
  inputs.foldl (fun r input => (inputRegistrations sid options input).foldl addListener r) r

/-- Unsubscribes from input (or change), focus and blur events
(`unsubscribeFromInputChanges`): for each control in order, detaches the
three callbacks recorded for its name, targeting `validateOn || change` for
the change callback. -/
def unsubscribeFromInputChanges (sid : Nat) (inputs : List FormFields)
    (options : Option FormulaValidations) (r : List ListenerEntry) :
    List ListenerEntry :=
  inputs.foldl (fun r input => (inputRegistrations sid options input).foldl removeListener r) r

/-- Runs one registered handler on the form state: the closure captured the
control it was built for (found among the subscribed controls by name) and
that control's options. -/
def runListenerEntry (v : Validator) (inputs : List FormFields)
    (options : Option FormulaValidations) (entry : ListenerEntry) (e : EventData)
    (fd : FormulaForm) : FormulaForm :=
  match inputs.find? (fun i => i.name = entry.field) with
  | none => fd
  | some input =>
    match entry.kind with
    | .change => (onChangeRun v input (getOpts options entry.field) e fd).state
    | .focus => (onFocusRun input (getOpts options entry.field) fd).state
    | .blur => (onBlurRun v input (getOpts options entry.field) fd).state

/-- Host event dispatch: runs, in registration order, every handler
registered for this event on this control. -/
def dispatchEvent (v : Validator) (inputs : List FormFields)
    (options : Option FormulaValidations) (r : List ListenerEntry)
    (control ev : String) (e : EventData) (fd : FormulaForm) : FormulaForm :=
  (r.filter (fun x => x.control = control && x.event = ev)).foldl
    (fun fd entry => runListenerEntry v inputs options entry e fd) fd

/-! ## Characterisation of the builder -/

theorem setField_of_findField_none (fd : FormulaForm) (n : String) (v : FieldState)
    (h : findField fd n = none) : setField fd n v = fd ++ [(n, v)] := by
  induction fd with
  | nil => rfl
  | cons p rest ih =>
    obtain ⟨k, w⟩ := p
    simp only [findField] at h
    by_cases hk : k = n
    · rw [if_pos hk] at h
      cases h
    · rw [if_neg hk] at h
      simp only [setField, if_neg hk, List.cons_append, ih h]

theorem findField_append (a b : FormulaForm) (n : String) :
    findField (a ++ b) n =
      match findField a n with
      | some w => some w
      | none => findField b n := by
  induction a with
  | nil => rfl
  | cons p rest ih =>
    obtain ⟨k, w⟩ := p
    simp only [List.cons_append, findField]
    by_cases hk : k = n
    · simp [hk]
    · simp [hk, ih]

/-- The fold of `createFormData` over controls whose names are fresh for the
accumulator and mutually distinct just appends the per-control entries. -/
theorem createFormData_foldl (inputs : List FormFields) (acc : FormulaForm)
    (hdisj : ∀ i ∈ inputs, findField acc i.name = none)
    (hnodup : (inputs.map FormFields.name).Nodup) :
    inputs.foldl
      (fun acc cur =>
        setField acc cur.name
          (initialFieldState cur ((findField acc cur.name).map (·.value))))
      acc
      = acc ++ inputs.map (fun cur => (cur.name, initialFieldState cur none)) := by
  induction inputs generalizing acc with
  | nil => simp
  | cons i rest ih =>
    simp only [List.foldl_cons, List.map_cons]
    have hi : findField acc i.name = none := hdisj i (by simp)
    rw [hi]
    simp only [Option.map_none']
    rw [setField_of_findField_none _ _ _ hi]
    simp only [List.map_cons, List.nodup_cons] at hnodup
    rw [ih (acc ++ [(i.name, initialFieldState i none)]) ?_ hnodup.2]
    · simp
    · intro j hj
      have hj1 : findField acc j.name = none := hdisj j (List.mem_cons_of_mem _ hj)
      have hj2 : ¬ i.name = j.name := by
        intro h
        exact hnodup.1 (h ▸ List.mem_map_of_mem FormFields.name hj)
      rw [findField_append, hj1]
      simp [findField, hj2]

/-- With mutually distinct names, `createFormData` is exactly the list of
per-control initial entries in declaration order, each value computed by
`getInputValue` with no previous value. -/
theorem createFormData_eq (inputs : List FormFields)
    (hnodup : (inputs.map FormFields.name).Nodup) :
    createFormData inputs
      = inputs.map (fun cur => (cur.name, initialFieldState cur none)) := by
  unfold createFormData
  rw [createFormData_foldl inputs [] (fun i _ => rfl) hnodup]
  simp

/-! ## Concrete sample controls used by witnesses -/

/-- A plain text input named email with empty value. -/
def textControl : FormFields :=
  { name := "email", value := "", checked := false, isHTMLInput := true,
    inputType := "text" }

/-- A checked checkbox input. -/
def checkboxControl : FormFields :=
  { name := "subscribe", value := "yes", checked := true, isHTMLInput := true,
    inputType := "checkbox" }

/-- A checked radio input. -/
def radioChecked : FormFields :=
  { name := "color", value := "red", checked := true, isHTMLInput := true,
    inputType := "radio" }

/-- An unchecked radio input. -/
def radioUnchecked : FormFields :=
  { name := "color", value := "blue", checked := false, isHTMLInput := true,
    inputType := "radio" }

/-- A control that is not a native input element. -/
def customControl : FormFields :=
  { name := "custom", value := "v0", checked := false, isHTMLInput := false,
    inputType := "text" }

/-! ## Claim C8 -/

/-- Claim C8: `createFormData` over N controls with distinct names yields
exactly N field-state entries in declaration order, each with isValid=true,
isTouched=false, isFocused=false, isDirty=false, errors=[], value computed
by `getInputValue`, and inputType equal to the control's native input
category if it is a genuine native input, else null. -/
theorem claim_C8 (inputs : List FormFields)
    (hnodup : (inputs.map FormFields.name).Nodup) :
    (createFormData inputs).length = inputs.length ∧
    createFormData inputs =
      inputs.map (fun cur =>
        (cur.name,
          { value := getInputValue cur none
            isValid := true
            isTouched := false
            isFocused := false
            isDirty := false
            errors := []
            inputType :=
              if cur.isHTMLInput then some cur.inputType else none })) := by
  have h := createFormData_eq inputs hnodup
  constructor
  · rw [h, List.length_map]
  · rw [h]
    rfl

/-- Claim C8 witness: the theorem instantiated at three concrete controls
with distinct names. -/
theorem claim_C8_witness :
    (createFormData [textControl, checkboxControl, customControl]).length = 3 ∧
    createFormData [textControl, checkboxControl, customControl] =
      [textControl, checkboxControl, customControl].map (fun cur =>
        (cur.name,
          { value := getInputValue cur none
            isValid := true
            isTouched := false
            isFocused := false
            isDirty := false
            errors := []
            inputType :=
              if cur.isHTMLInput then some cur.inputType else none })) :=
  claim_C8 [textControl, checkboxControl, customControl] (by decide)

/-! ## Claim C4 -/

/-- Claim C4 counterexample: the claim says an unchecked radio returns
`previousValue` whenever one is present; but with the present previous value
`false` the code's `previousValue || ""` returns the empty string. -/
theorem claim_C4_counterexample :
    getInputValue radioUnchecked (some (.bool false)) = .str "" ∧
    getInputValue radioUnchecked (some (.bool false)) ≠ .bool false := by
  constructor
  · rfl
  · intro h
    cases h

/-- Claim C4 (amended): for a radio control, the checked radio yields its
own value regardless of previousValue; the unchecked radio yields
previousValue when one is present and truthy, and the empty string when the
previous value is absent or falsy (the JavaScript `||` fallback, not `??`). -/
theorem claim_C4 (input : FormFields) (prev : Option InputValue)
    (hr : isRadio input = true) :
    (input.checked = true → getInputValue input prev = .str input.value) ∧
    (input.checked = false → prev = none → getInputValue input prev = .str "") ∧
    (input.checked = false → ∀ pv, prev = some pv → pv.truthy = true →
      getInputValue input prev = pv) ∧
    (input.checked = false → ∀ pv, prev = some pv → pv.truthy = false →
      getInputValue input prev = .str "") := by
  unfold getInputValue
  rw [hr]
  refine ⟨fun hc => ?_, fun hc hp => ?_, fun hc pv hp ht => ?_, fun hc pv hp ht => ?_⟩
  · simp [hc]
  · simp [hc, hp]
  · simp [hc, hp, ht]
  · simp [hc, hp, ht]

/-- Claim C4 witness: an unchecked radio with a truthy previous value keeps
that previous value. -/
theorem claim_C4_witness :
    getInputValue radioUnchecked (some (.str "red")) = .str "red" :=
  (claim_C4 radioUnchecked (some (.str "red")) (by decide)).2.2.1 (by decide)
    (.str "red") rfl (by decide)

/-! ## Frame properties of validation -/

theorem applyFieldValidation_some_eq (v : Validator) (input : FormFields)
    (fd : FormulaForm) (o : Option FormulaFieldOptions) (fd2 : FormulaForm)
    (h : applyFieldValidation v input fd o = some fd2) :
    ∃ b errs, v input fd o = some (b, errs) ∧
      fd2 = updateField fd input.name
        (fun fs => { fs with isValid := b, errors := errs }) := by
  unfold applyFieldValidation at h
  match hv : v input fd o with
  | none => rw [hv] at h; cases h
  | some (b, errs) =>
    rw [hv] at h
    injection h with h
    exact ⟨b, errs, rfl, h.symm⟩

/-- Validation touches only the validity flag and error list of its own
field: every other component of every field is unchanged. -/
theorem applyFieldValidation_stable (v : Validator) (input : FormFields)
    (fd : FormulaForm) (o : Option FormulaFieldOptions) (fd2 : FormulaForm)
    (h : applyFieldValidation v input fd o = some fd2) (m : String) :
    (getField fd2 m).value = (getField fd m).value ∧
    (getField fd2 m).isTouched = (getField fd m).isTouched ∧
    (getField fd2 m).isFocused = (getField fd m).isFocused ∧
    (getField fd2 m).isDirty = (getField fd m).isDirty ∧
    (getField fd2 m).inputType = (getField fd m).inputType := by
  obtain ⟨b, errs, _, rfl⟩ := applyFieldValidation_some_eq v input fd o fd2 h
  unfold getField
  rw [findField_updateField]
  by_cases hm : input.name = m
  · rw [if_pos hm]
    cases findField fd m <;> exact ⟨rfl, rfl, rfl, rfl, rfl⟩
  · rw [if_neg hm]
    exact ⟨rfl, rfl, rfl, rfl, rfl⟩

/-- Validation leaves every field other than its own entirely unchanged. -/
theorem applyFieldValidation_frame (v : Validator) (input : FormFields)
    (fd : FormulaForm) (o : Option FormulaFieldOptions) (fd2 : FormulaForm)
    (h : applyFieldValidation v input fd o = some fd2) (m : String)
    (hm : input.name ≠ m) : findField fd2 m = findField fd m := by
  obtain ⟨b, errs, _, rfl⟩ := applyFieldValidation_some_eq v input fd o fd2 h
  rw [findField_updateField, if_neg hm]

theorem isSome_applyFieldValidation (v : Validator) (input : FormFields)
    (fd : FormulaForm) (o : Option FormulaFieldOptions) (fd2 : FormulaForm)
    (h : applyFieldValidation v input fd o = some fd2) (m : String) :
    (findField fd2 m).isSome = (findField fd m).isSome := by
  obtain ⟨b, errs, _, rfl⟩ := applyFieldValidation_some_eq v input fd o fd2 h
  exact isSome_findField_updateField fd input.name _ m

/-! ## Monotonicity helpers -/

/-- A Boolean field observation that an update function can only raise is
raised or kept by `updateField`. -/
theorem updateField_flag_mono (fd : FormulaForm) (n : String)
    (f : FieldState → FieldState) (g : FieldState → Bool)
    (hf : ∀ fs, g fs = true → g (f fs) = true)
    (m : String) (h : g (getField fd m) = true) :
    g (getField (updateField fd n f) m) = true := by
  unfold getField at h ⊢
  rw [findField_updateField]
  by_cases hm : n = m
  · rw [if_pos hm]
    cases hfd : findField fd m with
    | none => rw [hfd] at h; exact h
    | some w =>
      rw [hfd] at h
      exact hf w h
  · rw [if_neg hm]
    exact h

theorem applyFieldValidation_flag_mono (v : Validator) (input : FormFields)
    (fd : FormulaForm) (o : Option FormulaFieldOptions) (fd2 : FormulaForm)
    (h : applyFieldValidation v input fd o = some fd2) (g : FieldState → Bool)
    (hg : ∀ b errs fs, g { fs with isValid := b, errors := errs } = g fs)
    (m : String) (hm : g (getField fd m) = true) : g (getField fd2 m) = true := by
  obtain ⟨b, errs, _, rfl⟩ := applyFieldValidation_some_eq v input fd o fd2 h
  refine updateField_flag_mono fd input.name _ g (fun fs hfs => ?_) m hm
  rw [hg]
  exact hfs

/-! ## Characterisation of `onFocusRun` -/

theorem onFocusRun_state (input : FormFields) (o : Option FormulaFieldOptions)
    (fd : FormulaForm) :
    (onFocusRun input o fd).state =
      updateField fd input.name (fun fs => { fs with isFocused := true }) := rfl

theorem onFocusRun_threw (input : FormFields) (o : Option FormulaFieldOptions)
    (fd : FormulaForm) : (onFocusRun input o fd).threw = false := rfl

theorem onFocusRun_emitted (input : FormFields) (o : Option FormulaFieldOptions)
    (fd : FormulaForm) :
    (onFocusRun input o fd).emitted =
      if emitGate o Events.focus then
        [⟨Events.focus, .field (getField (onFocusRun input o fd).state input.name)⟩]
      else [] := rfl

/-! ## Characterisation of `onBlurRun` -/

/-- A component untouched by the update function reads the same before and
after `updateField`, for every field. -/
theorem getField_proj_updateField {α : Type} (fd : FormulaForm) (n : String)
    (f : FieldState → FieldState) (g : FieldState → α)
    (hf : ∀ fs, g (f fs) = g fs) (m : String) :
    g (getField (updateField fd n f) m) = g (getField fd m) := by
  unfold getField
  rw [findField_updateField]
  by_cases hm : n = m
  · rw [if_pos hm]
    cases findField fd m with
    | none => rfl
    | some w => exact hf w
  · rw [if_neg hm]

theorem onBlurRun_eq_of_touched (v : Validator) (input : FormFields)
    (o : Option FormulaFieldOptions) (fd : FormulaForm)
    (h : (getField fd input.name).isTouched = true) :
    onBlurRun v input o fd =
      { state := updateField fd input.name (fun fs => { fs with isFocused := false })
        emitted :=
          if emitGate o Events.blur then
            [⟨Events.blur, .field
              (getField
                (updateField fd input.name (fun fs => { fs with isFocused := false }))
                input.name)⟩]
          else []
        threw := false } := by
  unfold onBlurRun
  have hc : (getField
      (updateField fd input.name (fun fs => { fs with isFocused := false }))
      input.name).isTouched = true := by
    rw [getField_proj_updateField fd input.name
      (fun fs => { fs with isFocused := false }) FieldState.isTouched (fun _ => rfl)
      input.name]
    exact h
  simp only [hc, if_true]

theorem onBlurRun_eq_first_no_validate (v : Validator) (input : FormFields)
    (o : Option FormulaFieldOptions) (fd : FormulaForm)
    (h : (getField fd input.name).isTouched = false)
    (hv : ¬ (o.bind (fun x => x.validateDirtyOnly)) = some false) :
    onBlurRun v input o fd =
      { state :=
          updateField
            (updateField fd input.name (fun fs => { fs with isFocused := false }))
            input.name (fun fs => { fs with isTouched := true })
        emitted :=
          if emitGate o Events.blur then
            [⟨Events.blur, .field
              (getField
                (updateField
                  (updateField fd input.name (fun fs => { fs with isFocused := false }))
                  input.name (fun fs => { fs with isTouched := true }))
                input.name)⟩]
          else []
        threw := false } := by
  unfold onBlurRun
  have hc : (getField
      (updateField fd input.name (fun fs => { fs with isFocused := false }))
      input.name).isTouched = false := by
    rw [getField_proj_updateField fd input.name
      (fun fs => { fs with isFocused := false }) FieldState.isTouched (fun _ => rfl)
      input.name]
    exact h
  simp only [hc, Bool.false_eq_true, if_false, if_neg hv]

theorem onBlurRun_eq_first_validate_some (v : Validator) (input : FormFields)
    (o : Option FormulaFieldOptions) (fd : FormulaForm) (fd3 : FormulaForm)
    (h : (getField fd input.name).isTouched = false)
    (hv : (o.bind (fun x => x.validateDirtyOnly)) = some false)
    (hval :
      applyFieldValidation v input
        (updateField
          (updateField fd input.name (fun fs => { fs with isFocused := false }))
          input.name (fun fs => { fs with isTouched := true }))
        o = some fd3) :
    onBlurRun v input o fd =
      { state := fd3
        emitted :=
          if emitGate o Events.blur then
            [⟨Events.blur, .field (getField fd3 input.name)⟩]
          else []
        threw := false } := by
  unfold onBlurRun
  have hc : (getField
      (updateField fd input.name (fun fs => { fs with isFocused := false }))
      input.name).isTouched = false := by
    rw [getField_proj_updateField fd input.name
      (fun fs => { fs with isFocused := false }) FieldState.isTouched (fun _ => rfl)
      input.name]
    exact h
  simp only [hc, Bool.false_eq_true, if_false, if_pos hv, hval]

theorem onBlurRun_eq_first_validate_none (v : Validator) (input : FormFields)
    (o : Option FormulaFieldOptions) (fd : FormulaForm)
    (h : (getField fd input.name).isTouched = false)
    (hv : (o.bind (fun x => x.validateDirtyOnly)) = some false)
    (hval :
      applyFieldValidation v input
        (updateField
          (updateField fd input.name (fun fs => { fs with isFocused := false }))
          input.name (fun fs => { fs with isTouched := true }))
        o = none) :
    onBlurRun v input o fd =
      { state :=
          updateField
            (updateField fd input.name (fun fs => { fs with isFocused := false }))
            input.name (fun fs => { fs with isTouched := true })
        emitted := []
        threw := true } := by
  unfold onBlurRun
  have hc : (getField
      (updateField fd input.name (fun fs => { fs with isFocused := false }))
      input.name).isTouched = false := by
    rw [getField_proj_updateField fd input.name
      (fun fs => { fs with isFocused := false }) FieldState.isTouched (fun _ => rfl)
      input.name]
    exact h
  simp only [hc, Bool.false_eq_true, if_false, if_pos hv, hval]

/-! ## Characterisation of `onChangeRun` -/

theorem onChangeRun_eq_throw (v : Validator) (input : FormFields)
    (o : Option FormulaFieldOptions) (e : EventData) (fd : FormulaForm)
    (hval :
      applyFieldValidation v input
        (updateField fd input.name (fun fs =>
          { fs with value :=
              if isCheckbox input then .bool e.targetChecked
              else .str e.targetValue }))
        o = none) :
    onChangeRun v input o e fd =
      { state :=
          updateField fd input.name (fun fs =>
            { fs with value :=
                if isCheckbox input then .bool e.targetChecked
                else .str e.targetValue })
        emitted := []
        threw := true } := by
  unfold onChangeRun
  simp only [hval]

theorem onChangeRun_eq_some (v : Validator) (input : FormFields)
    (o : Option FormulaFieldOptions) (e : EventData) (fd : FormulaForm)
    (fd2 : FormulaForm)
    (hval :
      applyFieldValidation v input
        (updateField fd input.name (fun fs =>
          { fs with value :=
              if isCheckbox input then .bool e.targetChecked
              else .str e.targetValue }))
        o = some fd2) :
    onChangeRun v input o e fd =
      { state :=
          if (getField fd2 input.name).isDirty then fd2
          else updateField fd2 input.name (fun fs => { fs with isDirty := true })
        emitted :=
          if emitGate o (resolvedChangeEvent o) then
            [⟨resolvedChangeEvent o, .field
              (getField
                (if (getField fd2 input.name).isDirty then fd2
                 else updateField fd2 input.name (fun fs => { fs with isDirty := true }))
                input.name)⟩]
          else []
        threw := false } := by
  unfold onChangeRun
  simp only [hval]

/-! ## Characterisation of `submitLoop` -/

/-- The state reached by validating every input in declaration order (a
thrown validation leaves the state of that step unchanged); this is the
submit loop's effect on the form state. -/
def validateAllFields (v : Validator) (options : Option FormulaValidations)
    (inputs : List FormFields) (fd : FormulaForm) : FormulaForm :=
  inputs.foldl
    (fun fd input =>
      match applyFieldValidation v input fd (getOpts options input.name) with
      | none => fd
      | some fd1 => fd1)
    fd

theorem validateAllFields_frame (v : Validator) (options : Option FormulaValidations)
    (inputs : List FormFields) (fd : FormulaForm) (m : String)
    (hm : ∀ i ∈ inputs, i.name ≠ m) :
    findField (validateAllFields v options inputs fd) m = findField fd m := by
  induction inputs generalizing fd with
  | nil => rfl
  | cons i rest ih =>
    unfold validateAllFields
    rw [List.foldl_cons]
    cases happ : applyFieldValidation v i fd (getOpts options i.name) with
    | none =>
      exact ih fd (fun j hj => hm j (List.mem_cons_of_mem _ hj))
    | some fd1 =>
      have hstep : findField fd1 m = findField fd m :=
        applyFieldValidation_frame v i fd _ fd1 happ m (hm i (by simp))
      show findField (validateAllFields v options rest fd1) m = findField fd m
      rw [ih fd1 (fun j hj => hm j (List.mem_cons_of_mem _ hj)), hstep]

/-- When no validation throws, the submit loop validates every field in
declaration order and its accumulator is the conjunction of all fields'
validity in the final state (requires distinct names so that later
validations do not disturb earlier fields). -/
theorem submitLoop_eq_of_total (v : Validator) (options : Option FormulaValidations)
    (htotal : ∀ input fd o, (v input fd o).isSome = true)
    (inputs : List FormFields) (fd : FormulaForm) (b : Bool)
    (hnodup : (inputs.map FormFields.name).Nodup) :
    submitLoop v options inputs fd b =
      (validateAllFields v options inputs fd,
       b && inputs.all
         (fun i => (getField (validateAllFields v options inputs fd) i.name).isValid),
       false) := by
  induction inputs generalizing fd b with
  | nil =>
    simp [submitLoop, validateAllFields]
  | cons i rest ih =>
    obtain ⟨p, hp⟩ := Option.isSome_iff_exists.mp (htotal i fd (getOpts options i.name))
    have hsome : applyFieldValidation v i fd (getOpts options i.name) =
        some (updateField fd i.name
          (fun fs => { fs with isValid := p.1, errors := p.2 })) := by
      unfold applyFieldValidation
      rw [hp]
    set fd1 := updateField fd i.name
      (fun fs => { fs with isValid := p.1, errors := p.2 }) with hfd1
    have hall : validateAllFields v options (i :: rest) fd =
        validateAllFields v options rest fd1 := by
      unfold validateAllFields
      rw [List.foldl_cons, hsome]
    simp only [List.map_cons, List.nodup_cons] at hnodup
    have hframe : findField (validateAllFields v options rest fd1) i.name =
        findField fd1 i.name := by
      refine validateAllFields_frame v options rest fd1 i.name (fun j hj heq => ?_)
      exact hnodup.1 (heq ▸ List.mem_map_of_mem FormFields.name hj)
    unfold submitLoop
    rw [hsome]
    show submitLoop v options rest fd1
        (if (getField fd1 i.name).isValid = true then b else false) = _
    rw [ih fd1 _ hnodup.2, hall]
    have hvalid : (getField (validateAllFields v options rest fd1) i.name).isValid =
        (getField fd1 i.name).isValid := by
      unfold getField
      rw [hframe]
    refine Prod.ext rfl (Prod.ext ?_ rfl)
    show ((if (getField fd1 i.name).isValid = true then b else false) &&
        rest.all (fun j =>
          (getField (validateAllFields v options rest fd1) j.name).isValid)) =
      (b && (i :: rest).all (fun j =>
        (getField (validateAllFields v options rest fd1) j.name).isValid))
    rw [List.all_cons, hvalid]
    cases (getField fd1 i.name).isValid <;> cases b <;> simp

/-- The submit loop leaves the validity-stable components of every field
unchanged. -/
theorem submitLoop_stable (v : Validator) (options : Option FormulaValidations)
    (inputs : List FormFields) (fd : FormulaForm) (b : Bool) (m : String) :
    (getField (submitLoop v options inputs fd b).1 m).value = (getField fd m).value ∧
    (getField (submitLoop v options inputs fd b).1 m).isTouched = (getField fd m).isTouched ∧
    (getField (submitLoop v options inputs fd b).1 m).isFocused = (getField fd m).isFocused ∧
    (getField (submitLoop v options inputs fd b).1 m).isDirty = (getField fd m).isDirty := by
  induction inputs generalizing fd b with
  | nil => exact ⟨rfl, rfl, rfl, rfl⟩
  | cons i rest ih =>
    unfold submitLoop
    cases happ : applyFieldValidation v i fd (getOpts options i.name) with
    | none => exact ⟨rfl, rfl, rfl, rfl⟩
    | some fd1 =>
      obtain ⟨h1, h2, h3, h4, _⟩ := applyFieldValidation_stable v i fd _ fd1 happ m
      obtain ⟨g1, g2, g3, g4⟩ := ih fd1 (if (getField fd1 i.name).isValid then b else false)
      exact ⟨g1.trans h1, g2.trans h2, g3.trans h3, g4.trans h4⟩

theorem isSome_submitLoop (v : Validator) (options : Option FormulaValidations)
    (inputs : List FormFields) (fd : FormulaForm) (b : Bool) (m : String) :
    (findField (submitLoop v options inputs fd b).1 m).isSome =
      (findField fd m).isSome := by
  induction inputs generalizing fd b with
  | nil => rfl
  | cons i rest ih =>
    unfold submitLoop
    cases happ : applyFieldValidation v i fd (getOpts options i.name) with
    | none => rfl
    | some fd1 =>
      show (findField (submitLoop v options rest fd1
        (if (getField fd1 i.name).isValid = true then b else false)).1 m).isSome = _
      rw [ih fd1 _, isSome_applyFieldValidation v i fd _ fd1 happ m]

/-! ## Case shapes of the handler states -/

theorem onBlurRun_state_cases (v : Validator) (input : FormFields)
    (o : Option FormulaFieldOptions) (fd : FormulaForm) :
    (onBlurRun v input o fd).state =
        updateField fd input.name (fun fs => { fs with isFocused := false }) ∨
    (onBlurRun v input o fd).state =
        updateField
          (updateField fd input.name (fun fs => { fs with isFocused := false }))
          input.name (fun fs => { fs with isTouched := true }) ∨
    ∃ fd3,
      applyFieldValidation v input
        (updateField
          (updateField fd input.name (fun fs => { fs with isFocused := false }))
          input.name (fun fs => { fs with isTouched := true })) o = some fd3 ∧
      (onBlurRun v input o fd).state = fd3 := by
  by_cases ht : (getField fd input.name).isTouched = true
  · left
    rw [onBlurRun_eq_of_touched v input o fd ht]
  · have ht2 : (getField fd input.name).isTouched = false := by
      cases hx : (getField fd input.name).isTouched
      · rfl
      · exact absurd hx ht
    by_cases hvdo : (o.bind (fun x => x.validateDirtyOnly)) = some false
    · cases hval : applyFieldValidation v input
        (updateField
          (updateField fd input.name (fun fs => { fs with isFocused := false }))
          input.name (fun fs => { fs with isTouched := true })) o with
      | none =>
        right; left
        rw [onBlurRun_eq_first_validate_none v input o fd ht2 hvdo hval]
      | some fd3 =>
        right; right
        exact ⟨fd3, rfl, by rw [onBlurRun_eq_first_validate_some v input o fd fd3 ht2 hvdo hval]⟩
    · right; left
      rw [onBlurRun_eq_first_no_validate v input o fd ht2 hvdo]

theorem onChangeRun_state_cases (v : Validator) (input : FormFields)
    (o : Option FormulaFieldOptions) (e : EventData) (fd : FormulaForm) :
    ((onChangeRun v input o e fd).state =
        updateField fd input.name (fun fs =>
          { fs with value :=
              if isCheckbox input then .bool e.targetChecked
              else .str e.targetValue })) ∨
    ∃ fd2,
      applyFieldValidation v input
        (updateField fd input.name (fun fs =>
          { fs with value :=
              if isCheckbox input then .bool e.targetChecked
              else .str e.targetValue })) o = some fd2 ∧
      ((onChangeRun v input o e fd).state = fd2 ∨
       (onChangeRun v input o e fd).state =
         updateField fd2 input.name (fun fs => { fs with isDirty := true })) := by
  cases hval : applyFieldValidation v input
      (updateField fd input.name (fun fs =>
        { fs with value :=
            if isCheckbox input then .bool e.targetChecked
            else .str e.targetValue })) o with
  | none =>
    left
    rw [onChangeRun_eq_throw v input o e fd hval]
  | some fd2 =>
    right
    refine ⟨fd2, rfl, ?_⟩
    rw [onChangeRun_eq_some v input o e fd fd2 hval]
    by_cases hdirty : (getField fd2 input.name).isDirty = true
    · left
      simp [hdirty]
    · right
      have hd2 : (getField fd2 input.name).isDirty = false := by
        cases hx : (getField fd2 input.name).isDirty
        · rfl
        · exact absurd hx hdirty
      simp [hd2]

theorem onSubmitRun_state (v : Validator) (inputs : List FormFields)
    (options : Option FormulaValidations) (fd : FormulaForm) :
    (onSubmitRun v inputs options fd).state = (submitLoop v options inputs fd true).1 := by
  unfold onSubmitRun
  by_cases h : (submitLoop v options inputs fd true).2.2 = true
  · simp [h]
  · simp [h]

theorem onSubmitRun_preventedDefault (v : Validator) (inputs : List FormFields)
    (options : Option FormulaValidations) (fd : FormulaForm) :
    (onSubmitRun v inputs options fd).preventedDefault = true := by
  unfold onSubmitRun
  by_cases h : (submitLoop v options inputs fd true).2.2 = true
  · simp [h]
  · simp [h]

theorem onSubmitRun_threw (v : Validator) (inputs : List FormFields)
    (options : Option FormulaValidations) (fd : FormulaForm) :
    (onSubmitRun v inputs options fd).threw = (submitLoop v options inputs fd true).2.2 := by
  unfold onSubmitRun
  cases h : (submitLoop v options inputs fd true).2.2
  · simp [h]
  · simp [h]

theorem onSubmitRun_emitted_of_threw (v : Validator) (inputs : List FormFields)
    (options : Option FormulaValidations) (fd : FormulaForm)
    (h : (onSubmitRun v inputs options fd).threw = true) :
    (onSubmitRun v inputs options fd).emitted = [] := by
  unfold onSubmitRun at h ⊢
  by_cases hr : (submitLoop v options inputs fd true).2.2 = true
  · simp [hr]
  · simp [hr] at h

/-! ## Per-invocation component lemmas -/

theorem onFocusRun_stable (input : FormFields) (o : Option FormulaFieldOptions)
    (fd : FormulaForm) (m : String) :
    (getField (onFocusRun input o fd).state m).value = (getField fd m).value ∧
    (getField (onFocusRun input o fd).state m).isValid = (getField fd m).isValid ∧
    (getField (onFocusRun input o fd).state m).isTouched = (getField fd m).isTouched ∧
    (getField (onFocusRun input o fd).state m).isDirty = (getField fd m).isDirty ∧
    (getField (onFocusRun input o fd).state m).errors = (getField fd m).errors := by
  exact ⟨getField_proj_updateField fd input.name
      (fun fs => { fs with isFocused := true }) FieldState.value (fun _ => rfl) m,
    getField_proj_updateField fd input.name
      (fun fs => { fs with isFocused := true }) FieldState.isValid (fun _ => rfl) m,
    getField_proj_updateField fd input.name
      (fun fs => { fs with isFocused := true }) FieldState.isTouched (fun _ => rfl) m,
    getField_proj_updateField fd input.name
      (fun fs => { fs with isFocused := true }) FieldState.isDirty (fun _ => rfl) m,
    getField_proj_updateField fd input.name
      (fun fs => { fs with isFocused := true }) FieldState.errors (fun _ => rfl) m⟩

theorem onBlurRun_touched_mono (v : Validator) (input : FormFields)
    (o : Option FormulaFieldOptions) (fd : FormulaForm) (m : String)
    (h : (getField fd m).isTouched = true) :
    (getField (onBlurRun v input o fd).state m).isTouched = true := by
  rcases onBlurRun_state_cases v input o fd with hs | hs | ⟨fd3, hval, hs⟩
  · rw [hs]
    exact updateField_flag_mono fd input.name
      (fun fs => { fs with isFocused := false }) FieldState.isTouched
      (fun fs hf => hf) m h
  · rw [hs]
    refine updateField_flag_mono _ input.name
      (fun fs => { fs with isTouched := true }) FieldState.isTouched
      (fun fs _ => rfl) m ?_
    exact updateField_flag_mono fd input.name
      (fun fs => { fs with isFocused := false }) FieldState.isTouched
      (fun fs hf => hf) m h
  · rw [hs]
    refine applyFieldValidation_flag_mono v input _ o fd3 hval FieldState.isTouched
      (fun b errs fs => rfl) m ?_
    refine updateField_flag_mono _ input.name
      (fun fs => { fs with isTouched := true }) FieldState.isTouched
      (fun fs _ => rfl) m ?_
    exact updateField_flag_mono fd input.name
      (fun fs => { fs with isFocused := false }) FieldState.isTouched
      (fun fs hf => hf) m h

theorem onBlurRun_dirty_eq (v : Validator) (input : FormFields)
    (o : Option FormulaFieldOptions) (fd : FormulaForm) (m : String) :
    (getField (onBlurRun v input o fd).state m).isDirty = (getField fd m).isDirty := by
  rcases onBlurRun_state_cases v input o fd with hs | hs | ⟨fd3, hval, hs⟩
  · rw [hs]
    exact getField_proj_updateField fd input.name
      (fun fs => { fs with isFocused := false }) FieldState.isDirty (fun _ => rfl) m
  · rw [hs]
    rw [getField_proj_updateField _ input.name
      (fun fs => { fs with isTouched := true }) FieldState.isDirty (fun _ => rfl) m]
    exact getField_proj_updateField fd input.name
      (fun fs => { fs with isFocused := false }) FieldState.isDirty (fun _ => rfl) m
  · rw [hs]
    rw [(applyFieldValidation_stable v input _ o fd3 hval m).2.2.2.1]
    rw [getField_proj_updateField _ input.name
      (fun fs => { fs with isTouched := true }) FieldState.isDirty (fun _ => rfl) m]
    exact getField_proj_updateField fd input.name
      (fun fs => { fs with isFocused := false }) FieldState.isDirty (fun _ => rfl) m

theorem onChangeRun_touched_eq (v : Validator) (input : FormFields)
    (o : Option FormulaFieldOptions) (e : EventData) (fd : FormulaForm) (m : String) :
    (getField (onChangeRun v input o e fd).state m).isTouched =
      (getField fd m).isTouched := by
  rcases onChangeRun_state_cases v input o e fd with hs | ⟨fd2, hval, hs | hs⟩
  · rw [hs]
    exact getField_proj_updateField fd input.name
      (fun fs =>
        { fs with value :=
            if isCheckbox input then .bool e.targetChecked else .str e.targetValue })
      FieldState.isTouched (fun _ => rfl) m
  · rw [hs]
    rw [(applyFieldValidation_stable v input _ o fd2 hval m).2.1]
    exact getField_proj_updateField fd input.name
      (fun fs =>
        { fs with value :=
            if isCheckbox input then .bool e.targetChecked else .str e.targetValue })
      FieldState.isTouched (fun _ => rfl) m
  · rw [hs]
    rw [getField_proj_updateField fd2 input.name
      (fun fs => { fs with isDirty := true }) FieldState.isTouched (fun _ => rfl) m]
    rw [(applyFieldValidation_stable v input _ o fd2 hval m).2.1]
    exact getField_proj_updateField fd input.name
      (fun fs =>
        { fs with value :=
            if isCheckbox input then .bool e.targetChecked else .str e.targetValue })
      FieldState.isTouched (fun _ => rfl) m

theorem onChangeRun_dirty_mono (v : Validator) (input : FormFields)
    (o : Option FormulaFieldOptions) (e : EventData) (fd : FormulaForm) (m : String)
    (h : (getField fd m).isDirty = true) :
    (getField (onChangeRun v input o e fd).state m).isDirty = true := by
  rcases onChangeRun_state_cases v input o e fd with hs | ⟨fd2, hval, hs | hs⟩
  · rw [hs]
    exact updateField_flag_mono fd input.name
      (fun fs =>
        { fs with value :=
            if isCheckbox input then .bool e.targetChecked else .str e.targetValue })
      FieldState.isDirty (fun fs hf => hf) m h
  · rw [hs]
    refine applyFieldValidation_flag_mono v input _ o fd2 hval FieldState.isDirty
      (fun b errs fs => rfl) m ?_
    exact updateField_flag_mono fd input.name
      (fun fs =>
        { fs with value :=
            if isCheckbox input then .bool e.targetChecked else .str e.targetValue })
      FieldState.isDirty (fun fs hf => hf) m h
  · rw [hs]
    refine updateField_flag_mono fd2 input.name
      (fun fs => { fs with isDirty := true }) FieldState.isDirty
      (fun fs _ => rfl) m ?_
    refine applyFieldValidation_flag_mono v input _ o fd2 hval FieldState.isDirty
      (fun b errs fs => rfl) m ?_
    exact updateField_flag_mono fd input.name
      (fun fs =>
        { fs with value :=
            if isCheckbox input then .bool e.targetChecked else .str e.targetValue })
      FieldState.isDirty (fun fs hf => hf) m h

theorem onSubmitRun_touched_eq (v : Validator) (inputs : List FormFields)
    (options : Option FormulaValidations) (fd : FormulaForm) (m : String) :
    (getField (onSubmitRun v inputs options fd).state m).isTouched =
      (getField fd m).isTouched := by
  rw [onSubmitRun_state]
  exact (submitLoop_stable v options inputs fd true m).2.1

theorem onSubmitRun_dirty_eq (v : Validator) (inputs : List FormFields)
    (options : Option FormulaValidations) (fd : FormulaForm) (m : String) :
    (getField (onSubmitRun v inputs options fd).state m).isDirty =
      (getField fd m).isDirty := by
  rw [onSubmitRun_state]
  exact (submitLoop_stable v options inputs fd true m).2.2.2

/-! ## Monotonicity across arbitrary handler sequences -/

theorem runCall_touched_mono (v : Validator) (fd : FormulaForm) (c : HandlerCall)
    (m : String) (h : (getField fd m).isTouched = true) :
    (getField (runCall v fd c) m).isTouched = true := by
  cases c with
  | focusCall input o =>
    rw [show runCall v fd (.focusCall input o) = (onFocusRun input o fd).state from rfl]
    rw [(onFocusRun_stable input o fd m).2.2.1]
    exact h
  | blurCall input o => exact onBlurRun_touched_mono v input o fd m h
  | changeCall input o e =>
    show (getField (onChangeRun v input o e fd).state m).isTouched = true
    rw [onChangeRun_touched_eq v input o e fd m]
    exact h
  | submitCall inputs options =>
    show (getField (onSubmitRun v inputs options fd).state m).isTouched = true
    rw [onSubmitRun_touched_eq v inputs options fd m]
    exact h

theorem runCall_dirty_mono (v : Validator) (fd : FormulaForm) (c : HandlerCall)
    (m : String) (h : (getField fd m).isDirty = true) :
    (getField (runCall v fd c) m).isDirty = true := by
  cases c with
  | focusCall input o =>
    show (getField (onFocusRun input o fd).state m).isDirty = true
    rw [(onFocusRun_stable input o fd m).2.2.2.1]
    exact h
  | blurCall input o =>
    show (getField (onBlurRun v input o fd).state m).isDirty = true
    rw [onBlurRun_dirty_eq v input o fd m]
    exact h
  | changeCall input o e => exact onChangeRun_dirty_mono v input o e fd m h
  | submitCall inputs options =>
    show (getField (onSubmitRun v inputs options fd).state m).isDirty = true
    rw [onSubmitRun_dirty_eq v inputs options fd m]
    exact h

theorem runCalls_touched_mono (v : Validator) (calls : List HandlerCall)
    (fd : FormulaForm) (m : String) (h : (getField fd m).isTouched = true) :
    (getField (runCalls v calls fd) m).isTouched = true := by
  induction calls generalizing fd with
  | nil => exact h
  | cons c rest ih => exact ih (runCall v fd c) (runCall_touched_mono v fd c m h)

theorem runCalls_dirty_mono (v : Validator) (calls : List HandlerCall)
    (fd : FormulaForm) (m : String) (h : (getField fd m).isDirty = true) :
    (getField (runCalls v calls fd) m).isDirty = true := by
  induction calls generalizing fd with
  | nil => exact h
  | cons c rest ih => exact ih (runCall v fd c) (runCall_dirty_mono v fd c m h)

/-! ## Focus tracking -/

theorem onFocusRun_isFocused (input : FormFields) (o : Option FormulaFieldOptions)
    (fd : FormulaForm) (m : String) (hm : (findField fd m).isSome = true) :
    (getField (onFocusRun input o fd).state m).isFocused =
      if input.name = m then true else (getField fd m).isFocused := by
  show (getField
    (updateField fd input.name (fun fs => { fs with isFocused := true })) m).isFocused = _
  rw [getField_updateField fd input.name
    (fun fs => { fs with isFocused := true }) m hm]
  split <;> rfl

theorem onBlurRun_isFocused (v : Validator) (input : FormFields)
    (o : Option FormulaFieldOptions) (fd : FormulaForm) (m : String)
    (hm : (findField fd m).isSome = true) :
    (getField (onBlurRun v input o fd).state m).isFocused =
      if input.name = m then false else (getField fd m).isFocused := by
  rcases onBlurRun_state_cases v input o fd with hs | hs | ⟨fd3, hval, hs⟩
  · rw [hs]
    rw [getField_updateField fd input.name
      (fun fs => { fs with isFocused := false }) m hm]
    split <;> rfl
  · rw [hs]
    rw [getField_proj_updateField _ input.name
      (fun fs => { fs with isTouched := true }) FieldState.isFocused (fun _ => rfl) m]
    rw [getField_updateField fd input.name
      (fun fs => { fs with isFocused := false }) m hm]
    split <;> rfl
  · rw [hs]
    rw [(applyFieldValidation_stable v input _ o fd3 hval m).2.2.1]
    rw [getField_proj_updateField _ input.name
      (fun fs => { fs with isTouched := true }) FieldState.isFocused (fun _ => rfl) m]
    rw [getField_updateField fd input.name
      (fun fs => { fs with isFocused := false }) m hm]
    split <;> rfl

theorem onChangeRun_isFocused_eq (v : Validator) (input : FormFields)
    (o : Option FormulaFieldOptions) (e : EventData) (fd : FormulaForm) (m : String) :
    (getField (onChangeRun v input o e fd).state m).isFocused =
      (getField fd m).isFocused := by
  rcases onChangeRun_state_cases v input o e fd with hs | ⟨fd2, hval, hs | hs⟩
  · rw [hs]
    exact getField_proj_updateField fd input.name
      (fun fs =>
        { fs with value :=
            if isCheckbox input then .bool e.targetChecked else .str e.targetValue })
      FieldState.isFocused (fun _ => rfl) m
  · rw [hs]
    rw [(applyFieldValidation_stable v input _ o fd2 hval m).2.2.1]
    exact getField_proj_updateField fd input.name
      (fun fs =>
        { fs with value :=
            if isCheckbox input then .bool e.targetChecked else .str e.targetValue })
      FieldState.isFocused (fun _ => rfl) m
  · rw [hs]
    rw [getField_proj_updateField fd2 input.name
      (fun fs => { fs with isDirty := true }) FieldState.isFocused (fun _ => rfl) m]
    rw [(applyFieldValidation_stable v input _ o fd2 hval m).2.2.1]
    exact getField_proj_updateField fd input.name
      (fun fs =>
        { fs with value :=
            if isCheckbox input then .bool e.targetChecked else .str e.targetValue })
      FieldState.isFocused (fun _ => rfl) m

theorem onSubmitRun_isFocused_eq (v : Validator) (inputs : List FormFields)
    (options : Option FormulaValidations) (fd : FormulaForm) (m : String) :
    (getField (onSubmitRun v inputs options fd).state m).isFocused =
      (getField fd m).isFocused := by
  rw [onSubmitRun_state]
  exact (submitLoop_stable v options inputs fd true m).2.2.1

/-! ## Key-set preservation -/

theorem isSome_onBlurRun (v : Validator) (input : FormFields)
    (o : Option FormulaFieldOptions) (fd : FormulaForm) (m : String) :
    (findField (onBlurRun v input o fd).state m).isSome = (findField fd m).isSome := by
  rcases onBlurRun_state_cases v input o fd with hs | hs | ⟨fd3, hval, hs⟩
  · rw [hs]
    exact isSome_findField_updateField fd input.name _ m
  · rw [hs]
    rw [isSome_findField_updateField _ input.name _ m]
    exact isSome_findField_updateField fd input.name _ m
  · rw [hs]
    rw [isSome_applyFieldValidation v input _ o fd3 hval m]
    rw [isSome_findField_updateField _ input.name _ m]
    exact isSome_findField_updateField fd input.name _ m

theorem isSome_onChangeRun (v : Validator) (input : FormFields)
    (o : Option FormulaFieldOptions) (e : EventData) (fd : FormulaForm) (m : String) :
    (findField (onChangeRun v input o e fd).state m).isSome = (findField fd m).isSome := by
  rcases onChangeRun_state_cases v input o e fd with hs | ⟨fd2, hval, hs | hs⟩
  · rw [hs]
    exact isSome_findField_updateField fd input.name _ m
  · rw [hs]
    rw [isSome_applyFieldValidation v input _ o fd2 hval m]
    exact isSome_findField_updateField fd input.name _ m
  · rw [hs]
    rw [isSome_findField_updateField fd2 input.name _ m]
    rw [isSome_applyFieldValidation v input _ o fd2 hval m]
    exact isSome_findField_updateField fd input.name _ m

theorem isSome_runCall (v : Validator) (fd : FormulaForm) (c : HandlerCall)
    (m : String) :
    (findField (runCall v fd c) m).isSome = (findField fd m).isSome := by
  cases c with
  | focusCall input o =>
    show (findField (onFocusRun input o fd).state m).isSome = _
    exact isSome_findField_updateField fd input.name _ m
  | blurCall input o => exact isSome_onBlurRun v input o fd m
  | changeCall input o e => exact isSome_onChangeRun v input o e fd m
  | submitCall inputs options =>
    show (findField (onSubmitRun v inputs options fd).state m).isSome = _
    rw [onSubmitRun_state]
    exact isSome_submitLoop v options inputs fd true m

/-! ## Concrete validators used by witnesses -/

/-- A validation rule engine that accepts every field. -/
def okValidator : Validator := fun _ _ _ => some (true, [])

/-- A validation rule engine that rejects every field with one error. -/
def requiredValidator : Validator := fun _ _ _ => some (false, ["required"])

/-- A validation rule engine that throws on every field. -/
def throwValidator : Validator := fun _ _ _ => none

/-- A validation rule engine rejecting exactly the field with the given
name. -/
def flagValidator (bad : String) : Validator :=
  fun input _ _ => some (input.name != bad, [])

/-! ## Claim C5 -/

/-- Claim C5: for every field and every sequence of handler invocations
(focus, blur, change, submit) on the same form state, once isTouched is
true it never becomes false again, and once isDirty is true it never
becomes false again — for any validator behaviour, including throwing
ones. -/
theorem claim_C5 (v : Validator) (calls : List HandlerCall) (fd : FormulaForm)
    (name : String) :
    ((getField fd name).isTouched = true →
      (getField (runCalls v calls fd) name).isTouched = true) ∧
    ((getField fd name).isDirty = true →
      (getField (runCalls v calls fd) name).isDirty = true) :=
  ⟨runCalls_touched_mono v calls fd name, runCalls_dirty_mono v calls fd name⟩

/-- A form state whose email field is already touched and dirty. -/
def fdTouched : FormulaForm :=
  [("email",
    { value := .str "x", isValid := true, isTouched := true, isFocused := false,
      isDirty := true, errors := [], inputType := some "text" })]

/-- A demonstration event sequence hitting all four handler kinds. -/
def demoCalls : List HandlerCall :=
  [.blurCall textControl none,
   .changeCall textControl none ⟨"y", false⟩,
   .focusCall textControl none,
   .submitCall [textControl] none]

/-- Claim C5 witness: the flags survive a concrete blur, change, focus,
submit sequence. -/
theorem claim_C5_witness :
    (getField (runCalls okValidator demoCalls fdTouched) "email").isTouched = true ∧
    (getField (runCalls okValidator demoCalls fdTouched) "email").isDirty = true :=
  ⟨(claim_C5 okValidator demoCalls fdTouched "email").1 (by decide),
   (claim_C5 okValidator demoCalls fdTouched "email").2 (by decide)⟩

/-! ## Claim C1 -/

/-- Claim C1: every invocation of the submit handler suppresses the host's
default action, validates every field in declaration order without
short-circuiting (the final state is the in-order fold of per-field
validation over all fields), computes aggregate validity as the AND of all
fields' isValid after validation, and publishes exactly one submit event
carrying the full form state plus that aggregate flag — provided no
validation throws and field names are distinct. -/
theorem claim_C1 (v : Validator) (inputs : List FormFields)
    (options : Option FormulaValidations) (fd : FormulaForm)
    (htotal : ∀ input fd2 o, (v input fd2 o).isSome = true)
    (hnodup : (inputs.map FormFields.name).Nodup) :
    onSubmitRun v inputs options fd =
      { preventedDefault := true
        state := validateAllFields v options inputs fd
        emitted := [⟨Events.submit,
          .submitPayload (validateAllFields v options inputs fd)
            (inputs.all (fun i =>
              (getField (validateAllFields v options inputs fd) i.name).isValid))⟩]
        threw := false } := by
  unfold onSubmitRun
  rw [submitLoop_eq_of_total v options htotal inputs fd true hnodup]
  simp

/-- Three controls for the submit aggregation scenario. -/
def fieldA : FormFields :=
  { name := "a", value := "1", checked := false, isHTMLInput := true, inputType := "text" }

/-- Second control of the submit aggregation scenario. -/
def fieldB : FormFields :=
  { name := "b", value := "2", checked := false, isHTMLInput := true, inputType := "text" }

/-- Third control of the submit aggregation scenario. -/
def fieldC : FormFields :=
  { name := "c", value := "3", checked := false, isHTMLInput := true, inputType := "text" }

/-- Claim C1 witness: three fields where validation rejects exactly b; the
submit handler publishes exactly one event whose payload carries the state
of all three fields and aggregate validity false. -/
theorem claim_C1_witness :
    onSubmitRun (flagValidator "b") [fieldA, fieldB, fieldC] none
        (createFormData [fieldA, fieldB, fieldC]) =
      { preventedDefault := true
        state := validateAllFields (flagValidator "b") none [fieldA, fieldB, fieldC]
          (createFormData [fieldA, fieldB, fieldC])
        emitted := [⟨Events.submit,
          .submitPayload
            (validateAllFields (flagValidator "b") none [fieldA, fieldB, fieldC]
              (createFormData [fieldA, fieldB, fieldC]))
            ([fieldA, fieldB, fieldC].all (fun i =>
              (getField
                (validateAllFields (flagValidator "b") none [fieldA, fieldB, fieldC]
                  (createFormData [fieldA, fieldB, fieldC])) i.name).isValid))⟩]
        threw := false } ∧
    ([fieldA, fieldB, fieldC].all (fun i =>
      (getField
        (validateAllFields (flagValidator "b") none [fieldA, fieldB, fieldC]
          (createFormData [fieldA, fieldB, fieldC])) i.name).isValid)) = false ∧
    ((validateAllFields (flagValidator "b") none [fieldA, fieldB, fieldC]
      (createFormData [fieldA, fieldB, fieldC])).map Prod.fst) = ["a", "b", "c"] :=
  ⟨claim_C1 (flagValidator "b") [fieldA, fieldB, fieldC] none
      (createFormData [fieldA, fieldB, fieldC]) (fun _ _ _ => rfl) (by decide),
   by decide, by decide⟩

/-! ## Claim C9 -/

/-- Every entry the builder fold produces has isFocused = false. -/
theorem createFormData_foldl_isFocused (inputs : List FormFields)
    (acc : FormulaForm)
    (hacc : ∀ m fs, findField acc m = some fs → fs.isFocused = false)
    (m : String) (fs : FieldState)
    (h : findField
      (inputs.foldl
        (fun acc cur =>
          setField acc cur.name
            (initialFieldState cur ((findField acc cur.name).map (·.value))))
        acc) m = some fs) :
    fs.isFocused = false := by
  induction inputs generalizing acc with
  | nil => exact hacc m fs h
  | cons i rest ih =>
    refine ih _ ?_ h
    intro m2 fs2 h2
    rw [findField_setField] at h2
    by_cases hm2 : i.name = m2
    · rw [if_pos hm2] at h2
      injection h2 with h2
      rw [← h2]
      rfl
    · rw [if_neg hm2] at h2
      exact hacc m2 fs2 h2

/-- The initial state of every field is NotFocused. -/
theorem createFormData_isFocused (inputs : List FormFields) (m : String) :
    (getField (createFormData inputs) m).isFocused = false := by
  unfold getField
  cases hf : findField (createFormData inputs) m with
  | none => rfl
  | some fs =>
    exact createFormData_foldl_isFocused inputs [] (fun _ _ h => by cases h) m fs hf

/-- The reference focus window: the focus flag a field should carry after a
sequence of handler invocations — raised by a focus on the field, cleared
by a blur on the field, untouched by change and submit. -/
def lastFocusValue (name : String) : List HandlerCall → Bool → Bool
  | [], b => b
  | c :: rest, b =>
    lastFocusValue name rest
      (match c with
       | .focusCall i _ => if i.name = name then true else b
       | .blurCall i _ => if i.name = name then false else b
       | .changeCall _ _ _ => b
       | .submitCall _ _ => b)

theorem runCalls_isFocused (v : Validator) (calls : List HandlerCall)
    (fd : FormulaForm) (name : String)
    (hm : (findField fd name).isSome = true) :
    (getField (runCalls v calls fd) name).isFocused =
      lastFocusValue name calls ((getField fd name).isFocused) := by
  induction calls generalizing fd with
  | nil => rfl
  | cons c rest ih =>
    have hm2 : (findField (runCall v fd c) name).isSome = true := by
      rw [isSome_runCall v fd c name]
      exact hm
    show (getField (runCalls v rest (runCall v fd c)) name).isFocused = _
    rw [ih (runCall v fd c) hm2]
    have hstep : (getField (runCall v fd c) name).isFocused =
        (match c with
         | .focusCall i _ => if i.name = name then true else (getField fd name).isFocused
         | .blurCall i _ => if i.name = name then false else (getField fd name).isFocused
         | .changeCall _ _ _ => (getField fd name).isFocused
         | .submitCall _ _ => (getField fd name).isFocused) := by
      cases c with
      | focusCall i o => exact onFocusRun_isFocused i o fd name hm
      | blurCall i o => exact onBlurRun_isFocused v i o fd name hm
      | changeCall i o e => exact onChangeRun_isFocused_eq v i o e fd name
      | submitCall is os => exact onSubmitRun_isFocused_eq v is os fd name
    rw [hstep]
    cases c <;> rfl

/-- Claim C9: isFocused is true exactly between a focus event on the field
and its next blur event — after any handler sequence the flag equals the
reference focus window value; the initial state is NotFocused; and the
focus handler never invokes validation (validity, errors and the thrown
flag are untouched). -/
theorem claim_C9 (v : Validator) (calls : List HandlerCall) (fd : FormulaForm)
    (name : String) (input : FormFields) (o : Option FormulaFieldOptions)
    (hm : (findField fd name).isSome = true) :
    ((getField (runCalls v calls fd) name).isFocused =
      lastFocusValue name calls ((getField fd name).isFocused)) ∧
    (∀ inputs m, (getField (createFormData inputs) m).isFocused = false) ∧
    ((getField (onFocusRun input o fd).state name).isValid =
      (getField fd name).isValid ∧
     (getField (onFocusRun input o fd).state name).errors =
      (getField fd name).errors ∧
     (onFocusRun input o fd).threw = false) :=
  ⟨runCalls_isFocused v calls fd name hm,
   fun inputs m => createFormData_isFocused inputs m,
   (onFocusRun_stable input o fd name).2.1,
   (onFocusRun_stable input o fd name).2.2.2.2,
   onFocusRun_threw input o fd⟩

/-- Claim C9 witness: the focus window evaluated over a concrete
focus–blur–focus sequence on a built form. -/
theorem claim_C9_witness :
    (getField
      (runCalls okValidator
        [.focusCall textControl none, .blurCall textControl none,
         .focusCall textControl none]
        (createFormData [textControl])) "email").isFocused =
      lastFocusValue "email"
        [.focusCall textControl none, .blurCall textControl none,
         .focusCall textControl none]
        ((getField (createFormData [textControl]) "email").isFocused) :=
  (claim_C9 okValidator
    [.focusCall textControl none, .blurCall textControl none,
     .focusCall textControl none]
    (createFormData [textControl]) "email" textControl none (by decide)).1

/-! ## Claim C2 -/

/-- Claim C2: every change-handler invocation stores the boolean checked
state when the captured control is a checkbox and the event target's raw
value otherwise (no radio fallback), invokes validation for the field
(validity and errors become the validator's output), sets isDirty, throws
nothing when validation succeeds, and publishes exactly one event for the
resolved trigger when the emit gate allows — unconditionally so under
default options. -/
theorem claim_C2 (v : Validator) (input : FormFields)
    (o : Option FormulaFieldOptions) (e : EventData) (fd : FormulaForm)
    (b : Bool) (errs : List String)
    (hm : (findField fd input.name).isSome = true)
    (hval : v input
      (updateField fd input.name (fun fs =>
        { fs with value :=
            if isCheckbox input then .bool e.targetChecked
            else .str e.targetValue })) o = some (b, errs)) :
    (getField (onChangeRun v input o e fd).state input.name).value =
      (if isCheckbox input then .bool e.targetChecked else .str e.targetValue) ∧
    (getField (onChangeRun v input o e fd).state input.name).isDirty = true ∧
    (getField (onChangeRun v input o e fd).state input.name).isValid = b ∧
    (getField (onChangeRun v input o e fd).state input.name).errors = errs ∧
    (onChangeRun v input o e fd).threw = false ∧
    (onChangeRun v input o e fd).emitted =
      (if emitGate o (resolvedChangeEvent o) then
        [⟨resolvedChangeEvent o,
          .field (getField (onChangeRun v input o e fd).state input.name)⟩]
       else []) ∧
    (o = none → (onChangeRun v input o e fd).emitted =
      [⟨Events.change,
        .field (getField (onChangeRun v input o e fd).state input.name)⟩]) := by
  have happ : applyFieldValidation v input
      (updateField fd input.name (fun fs =>
        { fs with value :=
            if isCheckbox input then .bool e.targetChecked
            else .str e.targetValue })) o =
      some (updateField
        (updateField fd input.name (fun fs =>
          { fs with value :=
              if isCheckbox input then .bool e.targetChecked
              else .str e.targetValue }))
        input.name (fun fs => { fs with isValid := b, errors := errs })) := by
    unfold applyFieldValidation
    rw [hval]
  have heq := onChangeRun_eq_some v input o e fd _ happ
  have hm1 : (findField
      (updateField fd input.name (fun fs =>
        { fs with value :=
            if isCheckbox input then .bool e.targetChecked
            else .str e.targetValue })) input.name).isSome = true := by
    rw [isSome_findField_updateField]
    exact hm
  have hg1 : getField
      (updateField fd input.name (fun fs =>
        { fs with value :=
            if isCheckbox input then .bool e.targetChecked
            else .str e.targetValue })) input.name =
      { getField fd input.name with
        value :=
          if isCheckbox input then .bool e.targetChecked
          else .str e.targetValue } := by
    rw [getField_updateField fd input.name _ input.name hm, if_pos rfl]
  have hg2 : getField
      (updateField
        (updateField fd input.name (fun fs =>
          { fs with value :=
              if isCheckbox input then .bool e.targetChecked
              else .str e.targetValue }))
        input.name (fun fs => { fs with isValid := b, errors := errs }))
      input.name =
      { getField fd input.name with
        value :=
          (if isCheckbox input then .bool e.targetChecked
           else .str e.targetValue)
        isValid := b
        errors := errs } := by
    rw [getField_updateField _ input.name _ input.name hm1, if_pos rfl, hg1]
  have hm2 : (findField
      (updateField
        (updateField fd input.name (fun fs =>
          { fs with value :=
              if isCheckbox input then .bool e.targetChecked
              else .str e.targetValue }))
        input.name (fun fs => { fs with isValid := b, errors := errs }))
      input.name).isSome = true := by
    rw [isSome_findField_updateField]
    exact hm1
  rw [heq]
  by_cases hdirty : (getField
      (updateField
        (updateField fd input.name (fun fs =>
          { fs with value :=
              if isCheckbox input then .bool e.targetChecked
              else .str e.targetValue }))
        input.name (fun fs => { fs with isValid := b, errors := errs }))
      input.name).isDirty = true
  · simp only [hdirty, if_true]
    refine ⟨by rw [hg2], by first | exact hdirty | trivial, by rw [hg2],
      by rw [hg2], by trivial, by trivial, ?_⟩
    intro ho
    subst ho
    rfl
  · have hd2 : (getField
        (updateField
          (updateField fd input.name (fun fs =>
            { fs with value :=
                if isCheckbox input then .bool e.targetChecked
                else .str e.targetValue }))
          input.name (fun fs => { fs with isValid := b, errors := errs }))
        input.name).isDirty = false := by
      cases hx : (getField
        (updateField
          (updateField fd input.name (fun fs =>
            { fs with value :=
                if isCheckbox input then .bool e.targetChecked
                else .str e.targetValue }))
          input.name (fun fs => { fs with isValid := b, errors := errs }))
        input.name).isDirty
      · rfl
      · exact absurd hx hdirty
    simp only [hd2, Bool.false_eq_true, if_false]
    have hg3 : getField
        (updateField
          (updateField
            (updateField fd input.name (fun fs =>
              { fs with value :=
                  if isCheckbox input then .bool e.targetChecked
                  else .str e.targetValue }))
            input.name (fun fs => { fs with isValid := b, errors := errs }))
          input.name (fun fs => { fs with isDirty := true })) input.name =
        { getField fd input.name with
          value :=
            (if isCheckbox input then .bool e.targetChecked
             else .str e.targetValue)
          isValid := b
          errors := errs
          isDirty := true } := by
      rw [getField_updateField _ input.name _ input.name hm2, if_pos rfl, hg2]
    refine ⟨by rw [hg3], by rw [hg3], by rw [hg3], by rw [hg3],
      by trivial, by trivial, ?_⟩
    intro ho
    subst ho
    rfl

/-- Claim C2 witness: the email example — control {name:"email", value:""}
with default options; a change event carrying "a@b.com" yields value
"a@b.com", isDirty true, and exactly one published change event. -/
theorem claim_C2_witness :
    (getField (onChangeRun okValidator textControl none ⟨"a@b.com", false⟩
        (createFormData [textControl])).state "email").value = .str "a@b.com" ∧
    (getField (onChangeRun okValidator textControl none ⟨"a@b.com", false⟩
        (createFormData [textControl])).state "email").isDirty = true ∧
    (onChangeRun okValidator textControl none ⟨"a@b.com", false⟩
        (createFormData [textControl])).emitted =
      [⟨Events.change,
        .field (getField (onChangeRun okValidator textControl none ⟨"a@b.com", false⟩
          (createFormData [textControl])).state "email")⟩] := by
  have h := claim_C2 okValidator textControl none ⟨"a@b.com", false⟩
    (createFormData [textControl]) true [] (by decide) rfl
  exact ⟨h.1, h.2.1, h.2.2.2.2.2.2 rfl⟩

/-! ## Claim C7 -/

/-- Claim C7: every blur-handler invocation clears isFocused; a first blur
sets isTouched; validation runs on blur exactly in the first-blur case with
validateDirtyOnly explicitly false (in every other configuration the
handler result is the pure state update, validity and errors untouched). -/
theorem claim_C7 (v : Validator) (input : FormFields)
    (o : Option FormulaFieldOptions) (fd : FormulaForm)
    (hm : (findField fd input.name).isSome = true) :
    ((getField (onBlurRun v input o fd).state input.name).isFocused = false) ∧
    ((getField fd input.name).isTouched = false →
      (getField (onBlurRun v input o fd).state input.name).isTouched = true) ∧
    ((getField fd input.name).isTouched = true →
      onBlurRun v input o fd =
        { state := updateField fd input.name (fun fs => { fs with isFocused := false })
          emitted :=
            if emitGate o Events.blur then
              [⟨Events.blur, .field
                (getField
                  (updateField fd input.name (fun fs => { fs with isFocused := false }))
                  input.name)⟩]
            else []
          threw := false }) ∧
    ((getField fd input.name).isTouched = false →
      ¬ (o.bind (fun x => x.validateDirtyOnly)) = some false →
      onBlurRun v input o fd =
        { state :=
            updateField
              (updateField fd input.name (fun fs => { fs with isFocused := false }))
              input.name (fun fs => { fs with isTouched := true })
          emitted :=
            if emitGate o Events.blur then
              [⟨Events.blur, .field
                (getField
                  (updateField
                    (updateField fd input.name (fun fs => { fs with isFocused := false }))
                    input.name (fun fs => { fs with isTouched := true }))
                  input.name)⟩]
            else []
          threw := false }) ∧
    ((getField fd input.name).isTouched = false →
      (o.bind (fun x => x.validateDirtyOnly)) = some false →
      ∀ b errs,
        v input
          (updateField
            (updateField fd input.name (fun fs => { fs with isFocused := false }))
            input.name (fun fs => { fs with isTouched := true })) o = some (b, errs) →
        (getField (onBlurRun v input o fd).state input.name).isValid = b ∧
        (getField (onBlurRun v input o fd).state input.name).errors = errs) := by
  have hm1 : (findField
      (updateField fd input.name (fun fs => { fs with isFocused := false }))
      input.name).isSome = true := by
    rw [isSome_findField_updateField]
    exact hm
  have hm2 : (findField
      (updateField
        (updateField fd input.name (fun fs => { fs with isFocused := false }))
        input.name (fun fs => { fs with isTouched := true }))
      input.name).isSome = true := by
    rw [isSome_findField_updateField]
    exact hm1
  refine ⟨?_, ?_, ?_, ?_, ?_⟩
  · exact (onBlurRun_isFocused v input o fd input.name hm).trans (if_pos rfl)
  · intro ht
    by_cases hvdo : (o.bind (fun x => x.validateDirtyOnly)) = some false
    · cases hval2 : applyFieldValidation v input
        (updateField
          (updateField fd input.name (fun fs => { fs with isFocused := false }))
          input.name (fun fs => { fs with isTouched := true })) o with
      | none =>
        rw [onBlurRun_eq_first_validate_none v input o fd ht hvdo hval2]
        show (getField (updateField
          (updateField fd input.name (fun fs => { fs with isFocused := false }))
          input.name (fun fs => { fs with isTouched := true })) input.name).isTouched = true
        rw [getField_updateField _ input.name
          (fun fs => { fs with isTouched := true }) input.name hm1, if_pos rfl]
      | some fd3 =>
        rw [onBlurRun_eq_first_validate_some v input o fd fd3 ht hvdo hval2]
        show (getField fd3 input.name).isTouched = true
        rw [(applyFieldValidation_stable v input _ o fd3 hval2 input.name).2.1]
        rw [getField_updateField _ input.name
          (fun fs => { fs with isTouched := true }) input.name hm1, if_pos rfl]
    · rw [onBlurRun_eq_first_no_validate v input o fd ht hvdo]
      show (getField (updateField
        (updateField fd input.name (fun fs => { fs with isFocused := false }))
        input.name (fun fs => { fs with isTouched := true })) input.name).isTouched = true
      rw [getField_updateField _ input.name
        (fun fs => { fs with isTouched := true }) input.name hm1, if_pos rfl]
  · intro ht
    exact onBlurRun_eq_of_touched v input o fd ht
  · intro ht hvdo
    exact onBlurRun_eq_first_no_validate v input o fd ht hvdo
  · intro ht hvdo b errs hv2
    have happ : applyFieldValidation v input
        (updateField
          (updateField fd input.name (fun fs => { fs with isFocused := false }))
          input.name (fun fs => { fs with isTouched := true })) o =
        some (updateField
          (updateField
            (updateField fd input.name (fun fs => { fs with isFocused := false }))
            input.name (fun fs => { fs with isTouched := true }))
          input.name (fun fs => { fs with isValid := b, errors := errs })) := by
      unfold applyFieldValidation
      rw [hv2]
    rw [onBlurRun_eq_first_validate_some v input o fd _ ht hvdo happ]
    constructor
    · show (getField (updateField
        (updateField
          (updateField fd input.name (fun fs => { fs with isFocused := false }))
          input.name (fun fs => { fs with isTouched := true }))
        input.name (fun fs => { fs with isValid := b, errors := errs }))
        input.name).isValid = b
      rw [getField_updateField _ input.name
        (fun fs => { fs with isValid := b, errors := errs }) input.name hm2, if_pos rfl]
    · show (getField (updateField
        (updateField
          (updateField fd input.name (fun fs => { fs with isFocused := false }))
          input.name (fun fs => { fs with isTouched := true }))
        input.name (fun fs => { fs with isValid := b, errors := errs }))
        input.name).errors = errs
      rw [getField_updateField _ input.name
        (fun fs => { fs with isValid := b, errors := errs }) input.name hm2, if_pos rfl]

/-- Options forcing validation on first blur. -/
def eagerBlurOptions : FormulaFieldOptions :=
  { validateOn := none, emitOn := none, validateDirtyOnly := some false }

/-- Claim C7 witness: with validateDirtyOnly explicitly false, the first
blur of a fresh (not yet dirty) field runs validation and records its
outcome. -/
theorem claim_C7_witness :
    (getField (onBlurRun requiredValidator textControl (some eagerBlurOptions)
        (createFormData [textControl])).state "email").isValid = false ∧
    (getField (onBlurRun requiredValidator textControl (some eagerBlurOptions)
        (createFormData [textControl])).state "email").errors = ["required"] :=
  (claim_C7 requiredValidator textControl (some eagerBlurOptions)
      (createFormData [textControl]) (by decide)).2.2.2.2
    (by decide) rfl false ["required"] rfl

/-! ## Claim C6 -/

/-- Claim C6: no handler catches validation errors. A throw during a change
invocation aborts it after the value write — the isDirty update and the
publish are skipped; a throw during a submit invocation aborts the whole
handler and no submit event is published (the default action was already
suppressed). -/
theorem claim_C6 (v : Validator) (input : FormFields)
    (o : Option FormulaFieldOptions) (e : EventData) (fd : FormulaForm)
    (inputs : List FormFields) (options : Option FormulaValidations)
    (hthrow : v input
      (updateField fd input.name (fun fs =>
        { fs with value :=
            if isCheckbox input then .bool e.targetChecked
            else .str e.targetValue })) o = none) :
    ((onChangeRun v input o e fd).threw = true) ∧
    ((onChangeRun v input o e fd).emitted = []) ∧
    ((onChangeRun v input o e fd).state =
      updateField fd input.name (fun fs =>
        { fs with value :=
            if isCheckbox input then .bool e.targetChecked
            else .str e.targetValue })) ∧
    ((getField (onChangeRun v input o e fd).state input.name).isDirty =
      (getField fd input.name).isDirty) ∧
    ((onSubmitRun v inputs options fd).threw = true →
      (onSubmitRun v inputs options fd).emitted = [] ∧
      (onSubmitRun v inputs options fd).preventedDefault = true) ∧
    (∀ i rest, v i fd (getOpts options i.name) = none →
      (onSubmitRun v (i :: rest) options fd).threw = true) := by
  have happ : applyFieldValidation v input
      (updateField fd input.name (fun fs =>
        { fs with value :=
            if isCheckbox input then .bool e.targetChecked
            else .str e.targetValue })) o = none := by
    unfold applyFieldValidation
    rw [hthrow]
  have heq := onChangeRun_eq_throw v input o e fd happ
  refine ⟨by rw [heq], by rw [heq], by rw [heq], ?_, ?_, ?_⟩
  · rw [heq]
    show (getField (updateField fd input.name (fun fs =>
      { fs with value :=
          if isCheckbox input then .bool e.targetChecked
          else .str e.targetValue })) input.name).isDirty = _
    exact getField_proj_updateField fd input.name
      (fun fs =>
        { fs with value :=
            if isCheckbox input then .bool e.targetChecked
            else .str e.targetValue })
      FieldState.isDirty (fun _ => rfl) input.name
  · intro hthrew
    exact ⟨onSubmitRun_emitted_of_threw v inputs options fd hthrew,
      onSubmitRun_preventedDefault v inputs options fd⟩
  · intro i rest hv6
    rw [onSubmitRun_threw]
    have happ2 : applyFieldValidation v i fd (getOpts options i.name) = none := by
      unfold applyFieldValidation
      rw [hv6]
    show (submitLoop v options (i :: rest) fd true).2.2 = true
    unfold submitLoop
    rw [happ2]

/-- Claim C6 witness: a throwing validator aborts a concrete change
invocation (no publish) and a concrete submit invocation (no submit
event). -/
theorem claim_C6_witness :
    (onChangeRun throwValidator textControl none ⟨"z", false⟩
      (createFormData [textControl])).threw = true ∧
    (onChangeRun throwValidator textControl none ⟨"z", false⟩
      (createFormData [textControl])).emitted = [] ∧
    (onSubmitRun throwValidator [textControl] none
      (createFormData [textControl])).threw = true :=
  have h := claim_C6 throwValidator textControl none ⟨"z", false⟩
    (createFormData [textControl]) [textControl] none rfl
  ⟨h.1, h.2.1, h.2.2.2.2.2 textControl [] rfl⟩

/-! ## Claim C3 -/

/-- Options allowing publication only on blur. -/
def blurOnlyOptions : FormulaFieldOptions :=
  { validateOn := none, emitOn := some [Events.blur], validateDirtyOnly := none }

/-- Options with an explicitly empty emitOn allow-list. -/
def emptyEmitOptions : FormulaFieldOptions :=
  { validateOn := none, emitOn := some [], validateDirtyOnly := none }

theorem onBlurRun_emitted_of_not_threw (v : Validator) (input : FormFields)
    (o : Option FormulaFieldOptions) (fd : FormulaForm)
    (h : (onBlurRun v input o fd).threw = false) :
    ∃ p, (onBlurRun v input o fd).emitted =
      if emitGate o Events.blur then [⟨Events.blur, p⟩] else [] := by
  by_cases ht : (getField fd input.name).isTouched = true
  · rw [onBlurRun_eq_of_touched v input o fd ht]
    exact ⟨_, rfl⟩
  · have ht2 : (getField fd input.name).isTouched = false := by
      cases hx : (getField fd input.name).isTouched
      · rfl
      · exact absurd hx ht
    by_cases hvdo : (o.bind (fun x => x.validateDirtyOnly)) = some false
    · cases hval : applyFieldValidation v input
        (updateField
          (updateField fd input.name (fun fs => { fs with isFocused := false }))
          input.name (fun fs => { fs with isTouched := true })) o with
      | none =>
        rw [onBlurRun_eq_first_validate_none v input o fd ht2 hvdo hval] at h
        cases h
      | some fd3 =>
        rw [onBlurRun_eq_first_validate_some v input o fd fd3 ht2 hvdo hval]
        exact ⟨_, rfl⟩
    · rw [onBlurRun_eq_first_no_validate v input o fd ht2 hvdo]
      exact ⟨_, rfl⟩

theorem onChangeRun_emitted_of_not_threw (v : Validator) (input : FormFields)
    (o : Option FormulaFieldOptions) (e : EventData) (fd : FormulaForm)
    (h : (onChangeRun v input o e fd).threw = false) :
    ∃ p, (onChangeRun v input o e fd).emitted =
      if emitGate o (resolvedChangeEvent o) then [⟨resolvedChangeEvent o, p⟩]
      else [] := by
  cases hval : applyFieldValidation v input
      (updateField fd input.name (fun fs =>
        { fs with value :=
            if isCheckbox input then .bool e.targetChecked
            else .str e.targetValue })) o with
  | none =>
    rw [onChangeRun_eq_throw v input o e fd hval] at h
    cases h
  | some fd2 =>
    rw [onChangeRun_eq_some v input o e fd fd2 hval]
    exact ⟨_, rfl⟩

theorem onBlurRun_emitted_of_threw (v : Validator) (input : FormFields)
    (o : Option FormulaFieldOptions) (fd : FormulaForm)
    (h : (onBlurRun v input o fd).threw = true) :
    (onBlurRun v input o fd).emitted = [] := by
  by_cases ht : (getField fd input.name).isTouched = true
  · rw [onBlurRun_eq_of_touched v input o fd ht] at h
    cases h
  · have ht2 : (getField fd input.name).isTouched = false := by
      cases hy : (getField fd input.name).isTouched
      · rfl
      · exact absurd hy ht
    by_cases hvdo : (o.bind (fun x => x.validateDirtyOnly)) = some false
    · cases hval : applyFieldValidation v input
        (updateField
          (updateField fd input.name (fun fs => { fs with isFocused := false }))
          input.name (fun fs => { fs with isTouched := true })) o with
      | none =>
        rw [onBlurRun_eq_first_validate_none v input o fd ht2 hvdo hval]
      | some fd3 =>
        rw [onBlurRun_eq_first_validate_some v input o fd fd3 ht2 hvdo hval] at h
        cases h
    · rw [onBlurRun_eq_first_no_validate v input o fd ht2 hvdo] at h
      cases h

/-- Claim C3 counterexample: the claim says a field whose emitOn is an
empty set publishes on every trigger; but a blur with emitOn = [] (the
handler finishing normally) publishes nothing, because an empty array is
truthy in JavaScript so the gate falls through to includes. -/
theorem claim_C3_counterexample :
    (onBlurRun okValidator textControl (some emptyEmitOptions)
      (createFormData [textControl])).threw = false ∧
    (onBlurRun okValidator textControl (some emptyEmitOptions)
      (createFormData [textControl])).emitted = [] := by
  constructor
  · rfl
  · rfl

/-- Claim C3 (amended): a handler invocation publishes exactly one event —
named by its trigger (focus, blur, or the resolved change trigger) — when
`emitOn` is absent or includes that trigger's name, and publishes nothing
otherwise; an empty `emitOn` list therefore blocks every publish rather
than allowing all. A field with emitOn = [blur] publishes zero focus and
change events and exactly one blur event per blur. -/
theorem claim_C3 (v : Validator) (input : FormFields)
    (o : Option FormulaFieldOptions) (e : EventData) (fd : FormulaForm) :
    (∀ ev, emitGate o ev = true ↔
      ((o.bind (fun x => x.emitOn)) = none ∨
       ev ∈ ((o.bind (fun x => x.emitOn)).getD []))) ∧
    ((onFocusRun input o fd).emitted.length =
      if emitGate o Events.focus then 1 else 0) ∧
    (∀ x ∈ (onFocusRun input o fd).emitted, x.name = Events.focus) ∧
    ((onBlurRun v input o fd).threw = false →
      (onBlurRun v input o fd).emitted.length =
        if emitGate o Events.blur then 1 else 0) ∧
    (∀ x ∈ (onBlurRun v input o fd).emitted, x.name = Events.blur) ∧
    ((onChangeRun v input o e fd).threw = false →
      (onChangeRun v input o e fd).emitted.length =
        if emitGate o (resolvedChangeEvent o) then 1 else 0) ∧
    (∀ x ∈ (onChangeRun v input o e fd).emitted,
      x.name = resolvedChangeEvent o) ∧
    ((onFocusRun input (some blurOnlyOptions) fd).emitted = []) ∧
    ((onChangeRun v input (some blurOnlyOptions) e fd).emitted = []) ∧
    ((onBlurRun v input (some blurOnlyOptions) fd).emitted.length = 1) ∧
    ((onFocusRun input (some emptyEmitOptions) fd).emitted = [] ∧
     (onBlurRun v input (some emptyEmitOptions) fd).emitted = [] ∧
     (onChangeRun v input (some emptyEmitOptions) e fd).emitted = []) := by
  refine ⟨?_, ?_, ?_, ?_, ?_, ?_, ?_, ?_, ?_, ?_, ?_, ?_, ?_⟩
  · intro ev
    cases o with
    | none => simp [emitGate]
    | some oo =>
      cases ho : oo.emitOn with
      | none => simp [emitGate, ho]
      | some l => simp [emitGate, ho]
  · by_cases g : emitGate o Events.focus = true <;> simp [onFocusRun, g]
  · intro x hx
    by_cases g : emitGate o Events.focus = true
    · simp [onFocusRun, g] at hx
      rw [hx]
    · simp [onFocusRun, g] at hx
  · intro h
    obtain ⟨p, hp⟩ := onBlurRun_emitted_of_not_threw v input o fd h
    rw [hp]
    by_cases g : emitGate o Events.blur = true <;> simp [g]
  · intro x hx
    by_cases h : (onBlurRun v input o fd).threw = false
    · obtain ⟨p, hp⟩ := onBlurRun_emitted_of_not_threw v input o fd h
      rw [hp] at hx
      by_cases g : emitGate o Events.blur = true
      · simp [g] at hx
        rw [hx]
      · simp [g] at hx
    · have h2 : (onBlurRun v input o fd).threw = true := by
        cases hx2 : (onBlurRun v input o fd).threw
        · exact absurd hx2 h
        · rfl
      rw [onBlurRun_emitted_of_threw v input o fd h2] at hx
      cases hx
  · intro h
    obtain ⟨p, hp⟩ := onChangeRun_emitted_of_not_threw v input o e fd h
    rw [hp]
    by_cases g : emitGate o (resolvedChangeEvent o) = true <;> simp [g]
  · intro x hx
    by_cases h : (onChangeRun v input o e fd).threw = false
    · obtain ⟨p, hp⟩ := onChangeRun_emitted_of_not_threw v input o e fd h
      rw [hp] at hx
      by_cases g : emitGate o (resolvedChangeEvent o) = true
      · simp [g] at hx
        rw [hx]
      · simp [g] at hx
    · cases hval : applyFieldValidation v input
        (updateField fd input.name (fun fs =>
          { fs with value :=
              if isCheckbox input then .bool e.targetChecked
              else .str e.targetValue })) o with
      | none =>
        rw [onChangeRun_eq_throw v input o e fd hval] at hx
        cases hx
      | some fd2 =>
        exfalso
        apply h
        rw [onChangeRun_eq_some v input o e fd fd2 hval]
  · rfl
  · cases hval : applyFieldValidation v input
      (updateField fd input.name (fun fs =>
        { fs with value :=
            if isCheckbox input then .bool e.targetChecked
            else .str e.targetValue })) (some blurOnlyOptions) with
    | none =>
      rw [onChangeRun_eq_throw v input (some blurOnlyOptions) e fd hval]
    | some fd2 =>
      rw [onChangeRun_eq_some v input (some blurOnlyOptions) e fd fd2 hval]
      exact rfl
  · by_cases ht : (getField fd input.name).isTouched = true
    · rw [onBlurRun_eq_of_touched v input (some blurOnlyOptions) fd ht]
      exact rfl
    · have ht2 : (getField fd input.name).isTouched = false := by
        cases hx : (getField fd input.name).isTouched
        · rfl
        · exact absurd hx ht
      rw [onBlurRun_eq_first_no_validate v input (some blurOnlyOptions) fd ht2 (by decide)]
      exact rfl
  · rfl
  · by_cases ht : (getField fd input.name).isTouched = true
    · rw [onBlurRun_eq_of_touched v input (some emptyEmitOptions) fd ht]
      exact rfl
    · have ht2 : (getField fd input.name).isTouched = false := by
        cases hx : (getField fd input.name).isTouched
        · rfl
        · exact absurd hx ht
      rw [onBlurRun_eq_first_no_validate v input (some emptyEmitOptions) fd ht2 (by decide)]
      exact rfl
  · cases hval : applyFieldValidation v input
      (updateField fd input.name (fun fs =>
        { fs with value :=
            if isCheckbox input then .bool e.targetChecked
            else .str e.targetValue })) (some emptyEmitOptions) with
    | none =>
      rw [onChangeRun_eq_throw v input (some emptyEmitOptions) e fd hval]
    | some fd2 =>
      rw [onChangeRun_eq_some v input (some emptyEmitOptions) e fd fd2 hval]
      exact rfl

/-- Claim C3 witness: with emitOn = [blur], a concrete blur trigger that
does not abort publishes exactly one event. -/
theorem claim_C3_witness :
    (onBlurRun okValidator textControl (some blurOnlyOptions)
      (createFormData [textControl])).emitted.length =
      if emitGate (some blurOnlyOptions) Events.blur then 1 else 0 :=
  (claim_C3 okValidator textControl (some blurOnlyOptions) ⟨"x", false⟩
    (createFormData [textControl])).2.2.2.1 rfl

/-! ## Claim C10 -/

/-- All registrations a subscribe call performs, in order. -/
def inputsRegistrationList (sid : Nat) (options : Option FormulaValidations) :
    List FormFields → List ListenerEntry
  | [] => []
  | i :: rest =>
    inputRegistrations sid options i ++ inputsRegistrationList sid options rest

theorem sid_of_mem_inputRegistrations (sid : Nat)
    (options : Option FormulaValidations) (i : FormFields) (x : ListenerEntry)
    (hx : x ∈ inputRegistrations sid options i) : x.sid = sid := by
  simp [inputRegistrations] at hx
  rcases hx with rfl | rfl | rfl <;> rfl

theorem field_of_mem_inputRegistrations (sid : Nat)
    (options : Option FormulaValidations) (i : FormFields) (x : ListenerEntry)
    (hx : x ∈ inputRegistrations sid options i) : x.field = i.name := by
  simp [inputRegistrations] at hx
  rcases hx with rfl | rfl | rfl <;> rfl

theorem control_of_mem_inputRegistrations (sid : Nat)
    (options : Option FormulaValidations) (i : FormFields) (x : ListenerEntry)
    (hx : x ∈ inputRegistrations sid options i) : x.control = i.name := by
  simp [inputRegistrations] at hx
  rcases hx with rfl | rfl | rfl <;> rfl

theorem sid_of_mem_inputsRegistrationList (sid : Nat)
    (options : Option FormulaValidations) (inputs : List FormFields)
    (x : ListenerEntry) (hx : x ∈ inputsRegistrationList sid options inputs) :
    x.sid = sid := by
  induction inputs with
  | nil => cases hx
  | cons i rest ih =>
    simp only [inputsRegistrationList, List.mem_append] at hx
    rcases hx with hx | hx
    · exact sid_of_mem_inputRegistrations sid options i x hx
    · exact ih hx

theorem field_of_mem_inputsRegistrationList (sid : Nat)
    (options : Option FormulaValidations) (inputs : List FormFields)
    (x : ListenerEntry) (hx : x ∈ inputsRegistrationList sid options inputs) :
    ∃ j ∈ inputs, x.field = j.name := by
  induction inputs with
  | nil => cases hx
  | cons i rest ih =>
    simp only [inputsRegistrationList, List.mem_append] at hx
    rcases hx with hx | hx
    · exact ⟨i, by simp, field_of_mem_inputRegistrations sid options i x hx⟩
    · obtain ⟨j, hj, hjx⟩ := ih hx
      exact ⟨j, List.mem_cons_of_mem _ hj, hjx⟩

theorem addListener_of_not_mem (r : List ListenerEntry) (x : ListenerEntry)
    (h : x ∉ r) : addListener r x = r ++ [x] := by
  unfold addListener
  rw [if_neg h]

theorem foldl_addListener_inputRegistrations (sid : Nat)
    (options : Option FormulaValidations) (i : FormFields) (r : List ListenerEntry)
    (h : ∀ x ∈ inputRegistrations sid options i, x ∉ r) :
    (inputRegistrations sid options i).foldl addListener r =
      r ++ inputRegistrations sid options i := by
  have h1 : (⟨i.name, resolvedChangeEvent (getOpts options i.name), sid, i.name,
      .change⟩ : ListenerEntry) ∉ r := h _ (by simp [inputRegistrations])
  have h2 : (⟨i.name, Events.focus, sid, i.name, .focus⟩ : ListenerEntry) ∉ r :=
    h _ (by simp [inputRegistrations])
  have h3 : (⟨i.name, Events.blur, sid, i.name, .blur⟩ : ListenerEntry) ∉ r :=
    h _ (by simp [inputRegistrations])
  have hne2 : (⟨i.name, Events.focus, sid, i.name, .focus⟩ : ListenerEntry) ∉
      r ++ [⟨i.name, resolvedChangeEvent (getOpts options i.name), sid, i.name,
        .change⟩] := by
    intro hx
    rcases List.mem_append.mp hx with hx2 | hx2
    · exact h2 hx2
    · have hx3 := List.mem_singleton.mp hx2
      have hk := congrArg ListenerEntry.kind hx3
      simp at hk
  have hne3 : (⟨i.name, Events.blur, sid, i.name, .blur⟩ : ListenerEntry) ∉
      (r ++ [⟨i.name, resolvedChangeEvent (getOpts options i.name), sid, i.name,
        .change⟩]) ++ [⟨i.name, Events.focus, sid, i.name, .focus⟩] := by
    intro hx
    rcases List.mem_append.mp hx with hx2 | hx2
    · rcases List.mem_append.mp hx2 with hx4 | hx4
      · exact h3 hx4
      · have hx3 := List.mem_singleton.mp hx4
        have hk := congrArg ListenerEntry.kind hx3
        simp at hk
    · have hx3 := List.mem_singleton.mp hx2
      have hk := congrArg ListenerEntry.kind hx3
      simp at hk
  show addListener (addListener (addListener r _) _) _ = _
  rw [addListener_of_not_mem r _ h1]
  rw [addListener_of_not_mem _ _ hne2]
  rw [addListener_of_not_mem _ _ hne3]
  simp [inputRegistrations]

theorem subscribeToInputChanges_eq (sid : Nat)
    (options : Option FormulaValidations) (inputs : List FormFields)
    (r : List ListenerEntry)
    (hdisj : ∀ x ∈ inputsRegistrationList sid options inputs, x ∉ r)
    (hnodup : (inputs.map FormFields.name).Nodup) :
    subscribeToInputChanges sid inputs options r =
      r ++ inputsRegistrationList sid options inputs := by
  induction inputs generalizing r with
  | nil =>
    simp [subscribeToInputChanges, inputsRegistrationList]
  | cons i rest ih =>
    simp only [List.map_cons, List.nodup_cons] at hnodup
    have hstep : (inputRegistrations sid options i).foldl addListener r =
        r ++ inputRegistrations sid options i := by
      refine foldl_addListener_inputRegistrations sid options i r (fun x hx => ?_)
      exact hdisj x (by
        simp only [inputsRegistrationList, List.mem_append]
        exact Or.inl hx)
    show subscribeToInputChanges sid rest options
      ((inputRegistrations sid options i).foldl addListener r) = _
    rw [hstep]
    rw [ih (r ++ inputRegistrations sid options i) ?_ hnodup.2]
    · simp [inputsRegistrationList]
    · intro x hx
      simp only [List.mem_append]
      rintro (hxr | hxi)
      · exact hdisj x (by
          simp only [inputsRegistrationList, List.mem_append]
          exact Or.inr hx) hxr
      · obtain ⟨j, hj, hjx⟩ := field_of_mem_inputsRegistrationList sid options rest x hx
        have hxi2 := field_of_mem_inputRegistrations sid options i x hxi
        rw [hjx] at hxi2
        exact hnodup.1 (hxi2 ▸ List.mem_map_of_mem FormFields.name hj)

theorem removeListener_append_of_not_mem (A B : List ListenerEntry)
    (x : ListenerEntry) (h : x ∉ A) :
    removeListener (A ++ B) x = A ++ removeListener B x := by
  induction A with
  | nil => rfl
  | cons a rest ih =>
    simp only [List.cons_append, removeListener]
    have hax : ¬ a = x := fun heq => h (heq ▸ List.mem_cons_self a rest)
    rw [if_neg hax]
    exact congrArg (a :: ·) (ih (fun hx => h (List.mem_cons_of_mem a hx)))

theorem unsubscribeFromInputChanges_eq (sid : Nat)
    (options : Option FormulaValidations) (inputs : List FormFields)
    (r : List ListenerEntry)
    (hdisj : ∀ x ∈ inputsRegistrationList sid options inputs, x ∉ r)
    (hnodup : (inputs.map FormFields.name).Nodup) :
    unsubscribeFromInputChanges sid inputs options
      (r ++ inputsRegistrationList sid options inputs) = r := by
  induction inputs generalizing r with
  | nil =>
    simp [unsubscribeFromInputChanges, inputsRegistrationList]
  | cons i rest ih =>
    simp only [List.map_cons, List.nodup_cons] at hnodup
    have h1 : (⟨i.name, resolvedChangeEvent (getOpts options i.name), sid, i.name,
        .change⟩ : ListenerEntry) ∉ r :=
      hdisj _ (by simp [inputsRegistrationList, inputRegistrations])
    have h2 : (⟨i.name, Events.focus, sid, i.name, .focus⟩ : ListenerEntry) ∉ r :=
      hdisj _ (by simp [inputsRegistrationList, inputRegistrations])
    have h3 : (⟨i.name, Events.blur, sid, i.name, .blur⟩ : ListenerEntry) ∉ r :=
      hdisj _ (by simp [inputsRegistrationList, inputRegistrations])
    show unsubscribeFromInputChanges sid rest options
      ((inputRegistrations sid options i).foldl removeListener
        (r ++ inputsRegistrationList sid options (i :: rest))) = r
    have hstep : (inputRegistrations sid options i).foldl removeListener
        (r ++ inputsRegistrationList sid options (i :: rest)) =
        r ++ inputsRegistrationList sid options rest := by
      show removeListener (removeListener (removeListener
        (r ++ inputsRegistrationList sid options (i :: rest)) _) _) _ = _
      rw [show inputsRegistrationList sid options (i :: rest) =
        inputRegistrations sid options i ++ inputsRegistrationList sid options rest
        from rfl]
      rw [removeListener_append_of_not_mem r _ _ h1]
      rw [show removeListener (inputRegistrations sid options i ++
          inputsRegistrationList sid options rest)
          ⟨i.name, resolvedChangeEvent (getOpts options i.name), sid, i.name, .change⟩ =
          [⟨i.name, Events.focus, sid, i.name, .focus⟩,
           ⟨i.name, Events.blur, sid, i.name, .blur⟩] ++
          inputsRegistrationList sid options rest from by
        simp [inputRegistrations, removeListener]]
      rw [removeListener_append_of_not_mem r _ _ h2]
      rw [show removeListener
          ([⟨i.name, Events.focus, sid, i.name, .focus⟩,
            ⟨i.name, Events.blur, sid, i.name, .blur⟩] ++
           inputsRegistrationList sid options rest)
          ⟨i.name, Events.focus, sid, i.name, .focus⟩ =
          [⟨i.name, Events.blur, sid, i.name, .blur⟩] ++
          inputsRegistrationList sid options rest from by
        simp [removeListener]]
      rw [removeListener_append_of_not_mem r _ _ h3]
      rw [show removeListener
          ([⟨i.name, Events.blur, sid, i.name, .blur⟩] ++
           inputsRegistrationList sid options rest)
          ⟨i.name, Events.blur, sid, i.name, .blur⟩ =
          inputsRegistrationList sid options rest from by
        simp [removeListener]]
    rw [hstep]
    refine ih r (fun x hx => ?_) hnodup.2
    exact hdisj x (by
      simp only [inputsRegistrationList, List.mem_append]
      exact Or.inr hx)

theorem dispatchEvent_of_no_listener (v : Validator) (inputs : List FormFields)
    (options : Option FormulaValidations) (r : List ListenerEntry)
    (control ev : String) (e : EventData) (fd : FormulaForm)
    (h : ∀ x ∈ r, x.control ≠ control) :
    dispatchEvent v inputs options r control ev e fd = fd := by
  unfold dispatchEvent
  have hfil : r.filter (fun x => x.control = control && x.event = ev) = [] := by
    induction r with
    | nil => rfl
    | cons a rest ih =>
      have ha : (decide (a.control = control) && decide (a.event = ev)) = false := by
        have := h a (by simp)
        simp [this]
      simp only [List.filter_cons]
      rw [ha]
      exact ih (fun x hx => h x (List.mem_cons_of_mem a hx))
  rw [hfil]
  rfl

/-- Claim C10: with the same options used at subscribe time, distinct field
names, and fresh handler closures, unsubscribing removes exactly the
listener registrations that subscribing added — the listener table returns
to its prior state — and re-dispatching any previously bound native event
on such a control (with no other listeners registered for it) causes zero
further mutation of the form state. -/
theorem claim_C10 (v : Validator) (sid : Nat) (inputs : List FormFields)
    (options : Option FormulaValidations) (r : List ListenerEntry)
    (hnodup : (inputs.map FormFields.name).Nodup)
    (hfresh : ∀ x ∈ r, x.sid ≠ sid) :
    unsubscribeFromInputChanges sid inputs options
        (subscribeToInputChanges sid inputs options r) = r ∧
    (∀ control ev e fd, (∀ x ∈ r, x.control ≠ control) →
      dispatchEvent v inputs options
        (unsubscribeFromInputChanges sid inputs options
          (subscribeToInputChanges sid inputs options r)) control ev e fd = fd) := by
  have hdisj : ∀ x ∈ inputsRegistrationList sid options inputs, x ∉ r := by
    intro x hx hxr
    exact hfresh x hxr (sid_of_mem_inputsRegistrationList sid options inputs x hx)
  have hrestore : unsubscribeFromInputChanges sid inputs options
      (subscribeToInputChanges sid inputs options r) = r := by
    rw [subscribeToInputChanges_eq sid options inputs r hdisj hnodup]
    exact unsubscribeFromInputChanges_eq sid options inputs r hdisj hnodup
  refine ⟨hrestore, ?_⟩
  intro control ev e fd hc
  rw [hrestore]
  exact dispatchEvent_of_no_listener v inputs options r control ev e fd hc

/-- Claim C10 witness: subscribing two controls on an empty listener table
and unsubscribing with the same options empties the table again, and a
re-dispatched change event mutates nothing. -/
theorem claim_C10_witness :
    unsubscribeFromInputChanges 0 [textControl, checkboxControl] none
        (subscribeToInputChanges 0 [textControl, checkboxControl] none []) = [] ∧
    dispatchEvent okValidator [textControl, checkboxControl] none
        (unsubscribeFromInputChanges 0 [textControl, checkboxControl] none
          (subscribeToInputChanges 0 [textControl, checkboxControl] none []))
        "email" Events.change ⟨"zz", false⟩
        (createFormData [textControl, checkboxControl]) =
      createFormData [textControl, checkboxControl] :=
  have h := claim_C10 okValidator 0 [textControl, checkboxControl] none []
    (by decide) (fun x hx => absurd hx (List.not_mem_nil x))
  ⟨h.1, h.2 "email" Events.change ⟨"zz", false⟩
    (createFormData [textControl, checkboxControl])
    (fun x hx => absurd hx (List.not_mem_nil x))⟩
